import Mathlib

/-!
# Verification of the BoxNCase pinterest-auto-post pipeline

Shallow embedding of the content-automation pipeline of this repository:

* the Topic Selector (`scoreAndSelectTopicCandidates` in `src/index.ts`),
* the trend-source adapters' merge/dedup logic
  (`src/services/searchApiGoogleTrends.ts`, `src/services/googleTrendsBigQuery.ts`),
* the pipeline orchestrator (`runPipeline` in `src/index.ts`) with its ledger
  (`src/db/queries.ts`) modelled as explicit state passing,
* the Getlate pin adapter's sanitization (`src/services/getlatePin.ts`),
* the content-generation response validation (`generateContent` in the
  OpenAI content service),
* the headline sanitizer (modelled from the spec: its source file is not in
  the repository snapshot, only its import and call sites are).

JavaScript strings are modelled as Lean `String` (lists of characters);
JavaScript numbers appearing as trend scores are modelled as `Int`.
-/

namespace PinAutoPost

/-! ## String primitives (JS `String.prototype.includes`, `toLowerCase`) -/

/-- `isPrefOf needle hay` is true when `needle` is a prefix of `hay`
(character-exact), mirroring prefix comparison of JS strings. -/
def isPrefOf : List Char → List Char → Bool
  | [], _ => true
  | _ :: _, [] => false
  | a :: as, b :: bs => a == b && isPrefOf as bs

/-- `containsSub needle hay` is true when `needle` occurs contiguously inside
`hay`; this is JS `hay.includes(needle)`. -/
def containsSub (needle : List Char) : List Char → Bool
  | [] => needle.isEmpty
  | c :: rest => isPrefOf needle (c :: rest) || containsSub needle rest

/-- `strContains s sub` is JS `s.includes(sub)`. -/
def strContains (s sub : String) : Bool := containsSub sub.data s.data

/-- JS `s.toLowerCase()` (ASCII range), character by character. -/
def lowerStr (s : String) : String := ⟨s.data.map Char.toLower⟩

/-- JS `s.trim()`: drop leading and trailing whitespace. -/
def strTrim (s : String) : String :=
  ⟨((s.data.dropWhile (·.isWhitespace)).reverse.dropWhile (·.isWhitespace)).reverse⟩

theorem isPrefOf_iff (n h : List Char) : isPrefOf n h = true ↔ n <+: h := by
  induction n generalizing h with
  | nil => simp [isPrefOf]
  | cons a as ih =>
    cases h with
    | nil => simp [isPrefOf]
    | cons b bs =>
      simp [isPrefOf, ih, List.cons_prefix_cons]

theorem containsSub_iff (n h : List Char) : containsSub n h = true ↔ n <:+: h := by
  induction h with
  | nil =>
    simp only [containsSub, List.isEmpty_iff]
    constructor
    · rintro rfl; exact List.infix_rfl
    · intro hn; exact List.eq_nil_of_infix_nil hn
  | cons c rest ih =>
    simp only [containsSub, Bool.or_eq_true, isPrefOf_iff, ih, List.infix_cons_iff]

/-! ## Topic Selector (`scoreAndSelectTopicCandidates`, src/index.ts) -/

/-- A normalized trend item `{keyword, score?, rising?}` as produced by all
three trend-source adapters. -/
structure TrendItem where
  keyword : String
  score : Option Int := none
  rising : Option Bool := none
  deriving DecidableEq, Repr

/-- A scored keyword, the intermediate of the selector. -/
structure Scored where
  keyword : String
  score : Int
  deriving DecidableEq, Repr

/-- A topic candidate `{primary, supporting}`. -/
structure Candidate where
  primary : String
  supporting : List String
  deriving DecidableEq, Repr

/-- The hard-coded industry keyword list of `src/index.ts`. -/
def INDUSTRY_KEYWORDS : List String :=
  ["food", "beverage", "beverages", "snacks", "wholesale", "hospitality",
   "office", "events", "catering", "bulk", "commercial", "b2b"]

/-- The candidate cap `MAX_TOPIC_CANDIDATES` of `src/index.ts`. -/
def MAX_TOPIC_CANDIDATES : Nat := 10

/-- The selector's filter predicate: the lowercased trend keyword must
contain an industry term, or contain / be contained in a context keyword
(`kw.includes(i)`, `kw.includes(c) || c.includes(kw)` in the source). -/
def itemKept (contextKeywords : List String) (t : TrendItem) : Bool :=
  let kw := lowerStr t.keyword
  (INDUSTRY_KEYWORDS.any fun i => strContains kw i) ||
    (contextKeywords.any fun c => strContains kw c || strContains c kw)

/-- The selector's score:
`(t.score ?? 0) + (t.rising ? 20 : 0) + (inIndustry ? 10 : 0) + (inContext ? 10 : 0)`. -/
def itemScore (contextKeywords : List String) (t : TrendItem) : Int :=
  let kw := lowerStr t.keyword
  let inIndustry := INDUSTRY_KEYWORDS.any fun i => strContains kw i
  let inContext := contextKeywords.any fun c => strContains kw c || strContains c kw
  (t.score.getD 0) + (if t.rising.getD false then 20 else 0) +
    (if inIndustry then 10 else 0) + (if inContext then 10 else 0)

/-- Descending comparison used by `.sort((a, b) => b.score - a.score)`. -/
def scoreGe (a b : Scored) : Prop := b.score ≤ a.score

instance : DecidableRel scoreGe := fun a b => inferInstanceAs (Decidable (b.score ≤ a.score))

instance : IsTotal Scored scoreGe := ⟨fun a b => le_total b.score a.score⟩

instance : IsTrans Scored scoreGe := ⟨fun _ _ _ h1 h2 => le_trans h2 h1⟩

/-- The sorted, scored survivors of the filter (a stable descending sort, as
JS `Array.prototype.sort` is stable). -/
def scoredOf (trends : List TrendItem) (contextKeywords : List String) : List Scored :=
  List.insertionSort scoreGe
    ((trends.filter (itemKept contextKeywords)).map
      fun t => ⟨t.keyword, itemScore contextKeywords t⟩)

/-- `scoreAndSelectTopicCandidates` of `src/index.ts`: filter, score, sort
descending, take the top `MAX_TOPIC_CANDIDATES`; each candidate's supporting
list is the first 5 scored items with the candidate's own position removed
(`scored.filter((_, j) => j !== i).slice(0, 5)`). -/
def scoreAndSelectTopicCandidates (trends : List TrendItem)
    (contextKeywords : List String) : List Candidate :=
  let scored := scoredOf trends contextKeywords
  (scored.take MAX_TOPIC_CANDIDATES).enum.map fun p =>
    { primary := p.2.keyword
      supporting := ((scored.eraseIdx p.1).take 5).map (·.keyword) }

/-- The orchestrator's fallback (src/index.ts, topic discovery): when the
filter discards everything but trends exist, every trend item becomes a
candidate, with supporting keywords `trends.filter((_, j) => j !== i).slice(0, 5)`. -/
def fallbackCandidates (trends : List TrendItem) : List Candidate :=
  trends.enum.map fun p =>
    { primary := p.2.keyword
      supporting := ((trends.eraseIdx p.1).take 5).map (·.keyword) }

/-- The candidate list the orchestrator ends up with after the fallback
branch (`if (candidates.length === 0 && trends.length > 0)`). -/
def candidatesWithFallback (trends : List TrendItem)
    (contextKeywords : List String) : List Candidate :=
  let c := scoreAndSelectTopicCandidates trends contextKeywords
  if c.isEmpty && !trends.isEmpty then fallbackCandidates trends else c

/-! ## Headline sanitizer

Modelled from the spec: the module defining `sanitizeHeadline` is not in the
repository snapshot (only its import and call sites in `src/index.ts` are).
The spec says it normalizes the headline by collapsing any
immediately-repeated case-insensitive words ("Best Best Pie" → "Best Pie").
Words are the maximal space-free runs of the string. -/

/-- Case-insensitive word comparison (lowercase both sides). -/
def lcWord (w : List Char) : List Char := w.map Char.toLower

/-- Split a character list into its space-separated words, dropping empty
runs; `cur` accumulates the current word reversed. -/
def splitAux (cur : List Char) : List Char → List (List Char)
  | [] => if cur.isEmpty then [] else [cur.reverse]
  | c :: rest =>
    if c = ' ' then
      if cur.isEmpty then splitAux [] rest else cur.reverse :: splitAux [] rest
    else splitAux (c :: cur) rest

/-- The words of a character list. -/
def splitWords (l : List Char) : List (List Char) := splitAux [] l

/-- Join words back with single spaces. -/
def joinWords : List (List Char) → List Char
  | [] => []
  | [w] => w
  | w :: v :: ws => w ++ ' ' :: joinWords (v :: ws)

/-- Drop every word that repeats (case-insensitively) the previously kept
word `prev`. -/
def collapseAux (prev : List Char) : List (List Char) → List (List Char)
  | [] => []
  | w :: rest =>
    if lcWord prev = lcWord w then collapseAux prev rest
    else w :: collapseAux w rest

/-- Collapse immediately-repeated case-insensitive words, keeping the first
occurrence. -/
def collapseDups : List (List Char) → List (List Char)
  | [] => []
  | w :: rest => w :: collapseAux w rest

/-- Modelled from the spec: `sanitizeHeadline` collapses any
immediately-repeated case-insensitive words of the headline. -/
def sanitizeHeadline (s : String) : String :=
  ⟨joinWords (collapseDups (splitWords s.data))⟩

/-! ## Trend-source merges (dedup across top/rising sources)

`fetchFoodDrinkTrendsFromSearchApi` dedups case-insensitively via a `seen`
set of trimmed lowercased queries; `fetchTrendsFromBigQuery` merges the
`top_terms` and `top_rising_terms` tables by exact term equality. -/

/-- One row of SearchApi `related_queries.top` / `.rising`:
`{query, extracted_value}` (rows with an absent query are dropped upstream). -/
structure SearchApiRow where
  query : String
  value : Int
  deriving Repr

/-- The `push` closure of `fetchFoodDrinkTrendsFromSearchApi`: skip when the
trimmed lowercased key is empty or already seen, else record it. -/
def searchApiPush (st : List String × List TrendItem) (q : String) (score : Int)
    (rising : Bool) : List String × List TrendItem :=
  let k := lowerStr (strTrim q)
  if k = "" || st.1.contains k then st
  else (k :: st.1, st.2 ++ [⟨strTrim q, some score, some rising⟩])

/-- The merge loop of `fetchFoodDrinkTrendsFromSearchApi`: push all top rows
(`rising=false`) then all rising rows (`rising=true`); rows whose trimmed
query is empty are skipped (`if (q) push(...)`). -/
def searchApiMerge (top rising : List SearchApiRow) : List TrendItem :=
  let st1 := top.foldl (fun st r =>
    if strTrim r.query ≠ "" then searchApiPush st (strTrim r.query) r.value false else st)
    ([], [])
  let st2 := rising.foldl (fun st r =>
    if strTrim r.query ≠ "" then searchApiPush st (strTrim r.query) r.value true else st)
    st1
  st2.2

/-- Insertion-ordered map update used for `topByTerm` (`Map.set`): an
existing key keeps its position, a new key is appended. -/
def mapSet (m : List (String × Int)) (term : String) (score : Int) : List (String × Int) :=
  if m.any (fun p => p.1 = term) then m.map (fun p => if p.1 = term then (term, score) else p)
  else m ++ [(term, score)]

/-- Insertion-ordered set insert used for `risingTerms` (`Set.add`). -/
def setInsert (s : List String) (x : String) : List String :=
  if s.contains x then s else s ++ [x]

/-- The pure merge step of `fetchTrendsFromBigQuery` (after both queries
return): build `topByTerm` from the top rows (skipping falsy terms), build
`risingTerms` when `includeRising`, emit the top terms with
`rising = risingTerms.has(term)` then the rising terms not already present
in `topByTerm` with score 0. All membership tests are exact string equality. -/
def bigQueryMerge (topRows : List (String × Int)) (risingRows : List String)
    (includeRising : Bool) : List TrendItem :=
  let topByTerm := topRows.foldl (fun m r => if r.1 ≠ "" then mapSet m r.1 r.2 else m) []
  let risingTerms :=
    if includeRising then risingRows.foldl (fun s t => if t ≠ "" then setInsert s t else s) []
    else []
  (topByTerm.map fun p => ⟨p.1, some p.2, some (risingTerms.contains p.1)⟩) ++
    ((risingTerms.filter fun t => ¬ topByTerm.any (fun p => p.1 = t)).map
      fun t => ⟨t, some 0, some true⟩)

/-! ## Content-generation response validation (`generateContent`)

The OpenAI content service extracts `response.choices?.[0]?.message?.content`,
throws "OpenAI returned no content" when it is falsy, parses it as JSON and
throws "OpenAI response missing blog or pinterest object" when `parsed.blog`
or `parsed.pinterest` is falsy; no other field is checked. The parsed JSON is
modelled with optional fields. -/

/-- The `blog` object of a parsed response, fields optional as in raw JSON. -/
structure PartialBlogContent where
  title : Option String := none
  bodyHtml : Option String := none
  metaTitle : Option String := none
  metaDescription : Option String := none
  internalLinkingNotes : Option String := none
  deriving DecidableEq, Repr

/-- The `pinterest` object of a parsed response. -/
structure PartialPinterestCopy where
  headline : Option String := none
  description : Option String := none
  deriving DecidableEq, Repr

/-- A parsed content-generation response; `none` models an absent object. -/
structure ParsedContent where
  blog : Option PartialBlogContent := none
  pinterest : Option PartialPinterestCopy := none
  deriving DecidableEq, Repr

/-- `response.choices?.[0]?.message?.content` plus the
`if (!raw) throw new Error("OpenAI returned no content")` guard: the first
choice's content, absent or empty, is rejected. -/
def rawContentOfChoices (choices : List (Option String)) : Except String String :=
  match choices.head? with
  | none => .error "OpenAI returned no content"
  | some none => .error "OpenAI returned no content"
  | some (some raw) => if raw = "" then .error "OpenAI returned no content" else .ok raw

/-- The schema check of `generateContent`:
`if (!parsed.blog || !parsed.pinterest) throw ...; return parsed`. -/
def validateParsedContent (p : ParsedContent) : Except String ParsedContent :=
  if p.blog.isNone || p.pinterest.isNone then
    .error "OpenAI response missing blog or pinterest object"
  else .ok p

/-! ## Getlate pin adapter (`src/services/getlatePin.ts`) -/

/-- Pinterest pin limits of `src/services/getlatePin.ts`. -/
def PINTEREST_TITLE_MAX : Nat := 100

/-- Description limit. -/
def PINTEREST_DESCRIPTION_MAX : Nat := 500

/-- Link length limit. -/
def PINTEREST_LINK_MAX : Nat := 2048

/-- `s.slice(0, n)` on a JS string. -/
def strTake (s : String) (n : Nat) : String := ⟨s.data.take n⟩

/-- `c` is an ASCII control character matched by the `[\0-\x1F\x7F]` class of
`cleanText`. -/
def isAsciiControl (c : Char) : Bool := c.toNat < 0x20 || c.toNat = 0x7F

/-- `cleanText` of `getlatePin.ts`: remove ASCII control characters, then
trim. -/
def cleanText (s : String) : String :=
  strTrim ⟨s.data.filter fun c => !isAsciiControl c⟩

/-- JS `s.startsWith(pre)`. -/
def strStarts (s pre : String) : Bool := isPrefOf pre.data s.data

/-- Input of `createPinViaGetlate`. -/
structure CreatePinViaGetlateInput where
  apiKey : String
  accountId : String
  boardId : String
  title : String
  description : String
  link : String
  imageUrl : Option String := none
  imageBase64 : Option String := none
  imageContentType : Option String := none
  deriving Repr

/-- Result `{id, link, title}` of the Getlate pin adapter. -/
structure GetlatePinResult where
  id : String
  link : String
  title : String
  deriving DecidableEq, Repr

/-- Minimal model of `new URL(s)` for http(s) URLs: the hostname and the
slash-separated path segments. Other inputs fail to parse (the `catch`
branch of the board-id normalization keeps the raw value). -/
def parseUrlHostPath (s : String) : Option (String × List String) :=
  let rest :=
    if strStarts s "https://" then some (⟨s.data.drop 8⟩ : String)
    else if strStarts s "http://" then some (⟨s.data.drop 7⟩ : String)
    else none
  match rest with
  | none => none
  | some r =>
    match r.data.splitOn '/' with
    | [] => none
    | host :: path => if host.isEmpty then none else some (⟨host⟩, path.map (⟨·⟩))

/-- The board-id normalization of `sanitizeForPinterest`: a Pinterest board
URL is reduced to `username/board-name`; everything else is kept as is. -/
def normalizeBoardId (b : String) : String :=
  match parseUrlHostPath b with
  | none => b
  | some (host, parts) =>
    if strContains host "pinterest.com" then
      match parts.filter (fun p => !p.isEmpty) with
      | p0 :: p1 :: _ => p0 ++ "/" ++ p1
      | [p0] => p0
      | [] => b
    else b

/-- `sanitizeForPinterest` of `getlatePin.ts`: clean and cap title and
description, validate and cap the link, validate and normalize the board id.
Throws (models `throw new Error`) before any network call. -/
def sanitizeForPinterest (input : CreatePinViaGetlateInput) :
    Except String CreatePinViaGetlateInput :=
  let title := strTake (cleanText input.title) PINTEREST_TITLE_MAX
  let description := strTake (cleanText input.description) PINTEREST_DESCRIPTION_MAX
  let link0 := cleanText input.link
  if link0 = "" then
    .error "Pin destination link is required (e.g. blog article URL)"
  else
    let link := if link0.data.length > PINTEREST_LINK_MAX then strTake link0 PINTEREST_LINK_MAX
      else link0
    if !(strStarts link "http://" || strStarts link "https://") then
      .error ("Pin link must be a valid HTTP(S) URL, got: " ++ strTake link 50 ++ "...")
    else
      let boardId0 := strTrim input.boardId
      if boardId0 = "" then
        .error "Pinterest board ID is required and cannot be empty"
      else
        .ok { input with title, description, link, boardId := normalizeBoardId boardId0 }

/-- The request body of the Getlate `POST /posts` call (the fields actually
submitted for the pin). -/
structure GetlatePostBody where
  content : String
  imageUrl : String
  title : String
  boardId : String
  link : String
  deriving Repr

/-- Builds the `POST /posts` body from the sanitized input (`content` is the
description; `platformSpecificData` carries title, board and link). -/
def getlateBody (s : CreatePinViaGetlateInput) (imageUrl : String) : GetlatePostBody :=
  { content := s.description, imageUrl, title := s.title, boardId := s.boardId, link := s.link }

/-- Network oracles for the Getlate adapter. -/
structure GetlateNet where
  uploadResult : Except String String
  postResult : GetlatePostBody → Except String GetlatePinResult

/-- `createPinViaGetlate`: sanitize first, resolve the image URL (uploading
base64 when needed), then POST. The second component counts network requests
issued (presign/upload counted as one, the post as one). -/
def createPinViaGetlate (input : CreatePinViaGetlateInput) (net : GetlateNet) :
    Except String GetlatePinResult × Nat :=
  match sanitizeForPinterest input with
  | .error e => (.error e, 0)
  | .ok s =>
    let imageUrl? : Except String (Option String) × Nat :=
      match s.imageUrl with
      | some u => (.ok (some u), 0)
      | none =>
        match s.imageBase64 with
        | some _ =>
          match net.uploadResult with
          | .ok u => (.ok (some u), 1)
          | .error e => (.error e, 1)
        | none => (.ok none, 0)
    match imageUrl? with
    | (.error e, n) => (.error e, n)
    | (.ok none, n) => (.error "createPinViaGetlate requires imageUrl or imageBase64", n)
    | (.ok (some u), n) =>
      match net.postResult (getlateBody s u) with
      | .ok r => (.ok r, n + 1)
      | .error e => (.error e, n + 1)

/-! ## Ledger data model (`src/db/queries.ts`)

Timestamps (`now()` columns) are immaterial to the claims and are omitted;
row ids are assigned sequentially as the serial columns do. -/

/-- `topics.status ∈ {selected, used}` (spec §3). -/
inductive TopicStatus where
  | selected
  | used
  deriving DecidableEq, Repr

/-- A `runs` row. -/
structure RunRow where
  id : Nat
  status : String
  errorSummary : Option String := none
  deriving DecidableEq, Repr

/-- A `topics` row. -/
structure TopicRow where
  id : Nat
  primaryKeyword : String
  supportingKeywords : List String
  status : TopicStatus
  deriving DecidableEq, Repr

/-- A `posts` row. -/
structure PostRow where
  id : Nat
  topicId : Nat
  shopifyPostId : String
  title : String
  canonicalUrl : String
  metaTitle : String
  metaDescription : String
  deriving DecidableEq, Repr

/-- An `assets` row. -/
structure AssetRow where
  id : Nat
  type : String
  provider : String
  storageUrl : String
  deriving DecidableEq, Repr

/-- A `pins` row. -/
structure PinRow where
  id : Nat
  postId : Nat
  pinterestPinId : String
  imageAssetId : Nat
  title : String
  description : String
  destinationUrl : String
  platformUrl : Option String
  deriving DecidableEq, Repr

/-- A `logs` row. -/
structure LogRow where
  runId : Nat
  step : String
  level : String
  message : String
  deriving DecidableEq, Repr

/-- The Ledger database. -/
structure DB where
  runs : List RunRow := []
  topics : List TopicRow := []
  posts : List PostRow := []
  assets : List AssetRow := []
  pins : List PinRow := []
  logs : List LogRow := []
  deriving DecidableEq, Repr

/-- Pipeline state: the database, the count of attempted `logEvent` writes
(indexing the log-failure oracle) and call counters for the row-creating
queries (observing that `createPost` / `createAsset` / `createPin` were
invoked). -/
structure PipeSt where
  db : DB := {}
  logIdx : Nat := 0
  postCalls : Nat := 0
  assetCalls : Nat := 0
  pinCalls : Nat := 0
  deriving DecidableEq, Repr

/-! ## The pipeline monad

`async` JS with exceptions is modelled by explicit state passing plus
`Except String`: a step maps a state to a new state and either a value or a
thrown error message. -/

/-- State + exceptions. -/
def PipeM (α : Type) := PipeSt → PipeSt × Except String α

instance : Monad PipeM where
  pure a := fun st => (st, .ok a)
  bind f g := fun st =>
    match f st with
    | (st', .ok a) => g a st'
    | (st', .error e) => (st', .error e)

/-- `throw new Error(e)`. -/
def throwP {α : Type} (e : String) : PipeM α := fun st => (st, .error e)

/-- Await a request/response adapter outcome. -/
def liftE {α : Type} : Except String α → PipeM α
  | .ok a => fun st => (st, .ok a)
  | .error e => fun st => (st, .error e)

/-- `promise.catch(handler)` / `try { body } catch (err) { handler }`. -/
def tryCatchP {α : Type} (body : PipeM α) (handler : String → PipeM α) : PipeM α :=
  fun st =>
    match body st with
    | (st', .ok a) => (st', .ok a)
    | (st', .error e) => handler e st'

/-- Apply a pure database update. -/
def modDb (f : DB → DB) : PipeM Unit := fun st => ({ st with db := f st.db }, .ok ())

@[simp] theorem bind_apply {α β : Type} (f : PipeM α) (g : α → PipeM β) (st : PipeSt) :
    (f >>= g) st =
      match f st with
      | (st', .ok a) => g a st'
      | (st', .error e) => (st', .error e) := rfl

@[simp] theorem pure_apply {α : Type} (a : α) (st : PipeSt) :
    (pure a : PipeM α) st = (st, .ok a) := rfl

@[simp] theorem throwP_apply {α : Type} (e : String) (st : PipeSt) :
    (throwP e : PipeM α) st = (st, .error e) := rfl

@[simp] theorem liftE_ok_apply {α : Type} (a : α) (st : PipeSt) :
    (liftE (.ok a) : PipeM α) st = (st, .ok a) := rfl

@[simp] theorem liftE_error_apply {α : Type} (e : String) (st : PipeSt) :
    (liftE (.error e) : PipeM α) st = (st, .error e) := rfl

/-! ## Ledger queries as state transformers (`src/db/queries.ts`) -/

/-- `createRun`: insert a `running` row, returning its id. -/
def createRunM : PipeM Nat := fun st =>
  let id := st.db.runs.length + 1
  ({ st with db := { st.db with runs := st.db.runs ++ [{ id, status := "running" }] } }, .ok id)

/-- `finalizeRun`: set status and error summary of the run row. -/
def finalizeRunM (runId : Nat) (status : String) (errorSummary : Option String) : PipeM Unit :=
  modDb fun db =>
    { db with
      runs := db.runs.map fun r =>
        if r.id = runId then { r with status, errorSummary } else r }

/-- `isTopicUsed`: a `topics` row with this `primary_keyword` and status
`selected` or `used` exists. -/
def isTopicUsedD (db : DB) (keyword : String) : Bool :=
  db.topics.any fun t =>
    t.primaryKeyword = keyword &&
      (t.status = TopicStatus.selected || t.status = TopicStatus.used)

/-- `isTopicUsed` as a pipeline read. -/
def isTopicUsedM (keyword : String) : PipeM Bool := fun st =>
  (st, .ok (isTopicUsedD st.db keyword))

/-- `getTopicIdByKeyword`. -/
def getTopicIdByKeywordM (keyword : String) : PipeM (Option Nat) := fun st =>
  (st, .ok ((st.db.topics.find? fun t => t.primaryKeyword = keyword).map (·.id)))

/-- `createTopic`: insert a `selected` row, returning its id. -/
def createTopicM (primaryKeyword : String) (supportingKeywords : List String) : PipeM Nat :=
  fun st =>
    let id := st.db.topics.length + 1
    ({ st with db := { st.db with topics := st.db.topics ++
        [{ id, primaryKeyword, supportingKeywords, status := .selected }] } }, .ok id)

/-- `markTopicUsed`. -/
def markTopicUsedM (topicId : Nat) : PipeM Unit :=
  modDb fun db =>
    { db with
      topics := db.topics.map fun t =>
        if t.id = topicId then { t with status := .used } else t }

/-- `createPost` (also counts the invocation). -/
def createPostM (topicId : Nat) (shopifyPostId title canonicalUrl metaTitle metaDescription :
    String) : PipeM Nat := fun st =>
  let id := st.db.posts.length + 1
  ({ st with
      postCalls := st.postCalls + 1
      db := { st.db with posts := st.db.posts ++
        [{ id, topicId, shopifyPostId, title, canonicalUrl, metaTitle, metaDescription }] } },
    .ok id)

/-- `createAsset` (also counts the invocation). -/
def createAssetM (type provider storageUrl : String) : PipeM Nat := fun st =>
  let id := st.db.assets.length + 1
  ({ st with
      assetCalls := st.assetCalls + 1
      db := { st.db with assets := st.db.assets ++ [{ id, type, provider, storageUrl }] } },
    .ok id)

/-- `createPin` (also counts the invocation). -/
def createPinM (postId : Nat) (pinterestPinId : String) (imageAssetId : Nat)
    (title description destinationUrl : String) (platformUrl : Option String) : PipeM Nat :=
  fun st =>
    let id := st.db.pins.length + 1
    ({ st with
        pinCalls := st.pinCalls + 1
        db := { st.db with pins := st.db.pins ++
          [{ id, postId, pinterestPinId, imageAssetId, title, description, destinationUrl,
             platformUrl }] } },
      .ok id)

/-! ## Orchestrator configuration and adapter oracles

Only the configuration fields that steer `runPipeline`'s control flow are
modelled; fields that are merely forwarded as adapter arguments (API keys,
store URLs, board ids, ...) are absorbed into the adapter oracles. A
`?.trim()` truthiness test on an optional string becomes `optSet`. -/

/-- The mutually exclusive trend sources (`GOOGLE_TRENDS_SOURCE`). -/
inductive TrendsSource where
  | bigquery
  | mcp
  | searchapiFood
  deriving DecidableEq, Repr

/-- `config.X?.trim()` truthiness: set and nonempty after trimming. -/
def optSet : Option String → Bool
  | none => false
  | some s => !(strTrim s).isEmpty

/-- The control-flow-relevant part of `AppConfig` (`src/config.ts`). -/
structure AppConfig where
  DRY_RUN : Bool := false
  ALLOW_TOPIC_REUSE : Bool := false
  GOOGLE_TRENDS_SOURCE : TrendsSource := .bigquery
  BOXNCASE_MCP_URL : Option String := none
  BRAND_NAME : String := "BoxNCase"
  GETLATE_API_KEY : Option String := none
  TEMPLATED_API_KEY : Option String := none
  TEMPLATED_TEMPLATE_ID : Option String := none
  TEMPLATED_TEMPLATE_IDS : Option String := none
  TEMPLATED_PAGE_COUNT : Option Nat := none
  deriving Repr

/-- A generated image `{imageDataBase64, mimeType}`. -/
structure GenImage where
  imageDataBase64 : String
  mimeType : Option String := none
  deriving Repr

/-- Blog fields of the generated content. -/
structure BlogContent where
  title : String
  bodyHtml : String
  metaTitle : String
  metaDescription : String
  internalLinkingNotes : String
  deriving Repr

/-- Pinterest copy of the generated content. -/
structure PinterestCopy where
  headline : String
  description : String
  deriving Repr

/-- The validated content-generation result. -/
structure GeneratedContent where
  blog : BlogContent
  pinterest : PinterestCopy
  deriving Repr

/-- The BoxNCase context response (categories and products with optional
keyword lists). -/
structure ContextEntry where
  name : String
  keywords : Option (List String) := none
  deriving Repr

/-- `{categories, products}` as validated by the context adapter. -/
structure BoxNCaseContext where
  categories : List ContextEntry := []
  products : List ContextEntry := []
  deriving Repr

/-- `extractContextKeywords` (BoxNCase context service): lowercase names and
keywords of categories then products, deduplicated in insertion order (a JS
`Set`). Falsy (empty) names are skipped. -/
def extractContextKeywords (context : BoxNCaseContext) : List String :=
  let step := fun (acc : List String) (e : ContextEntry) =>
    let acc1 := if e.name ≠ "" then setInsert acc (lowerStr e.name) else acc
    (e.keywords.getD []).foldl (fun a k => setInsert a (lowerStr k)) acc1
  let acc1 := context.categories.foldl step []
  context.products.foldl step acc1

/-- Blog publish result (`createBlogArticle`). -/
structure ShopifyResult where
  id : String
  url : String
  deriving Repr

/-- Templated.io render result. -/
structure TemplatedResult where
  renderUrl : String
  deriving Repr

/-- Outcomes of the external collaborators for one run. Adapter calls are
request/response; their outcomes are fixed oracles (`Except` = resolve or
reject). `logFail n` decides whether the `n`-th attempted Ledger `logEvent`
insert rejects, `finalizeCatchFail` whether the finalize-failed write of the
top-level catch handler rejects. -/
structure Oracles where
  logFail : Nat → Option String := fun _ => none
  finalizeCatchFail : Option String := none
  trendsResult : Except String (List TrendItem)
  contextResult : Except String BoxNCaseContext := .ok {}
  contentResult : Except String GeneratedContent
  localTemplatePath : Option String := none
  logoExists : Bool := false
  addTextResult : Except String GenImage := .error "unavailable"
  uploadResult : String → Except String String := fun _ => .error "unavailable"
  generateImageResult : Except String GenImage := .error "unavailable"
  templatedResult : Except String TemplatedResult := .error "unavailable"
  improveResult : Except String GenImage := .error "unavailable"
  reuploadResult : String → Except String String := fun _ => .error "unavailable"
  shopifyToken : Except String String := .error "unavailable"
  blogResult : Except String ShopifyResult := .error "unavailable"
  getlatePinResult : Except String GetlatePinResult := .error "unavailable"
  pinterestPinResult : Except String GetlatePinResult := .error "unavailable"

/-- Prefix a rejected adapter's message with the step-qualified wrapper
(`.catch((err) => { throw new Error(\x7bprefix\x7d + err.message) })`). -/
def wrapE {α : Type} (prefixMsg : String) : Except String α → Except String α
  | .ok a => .ok a
  | .error e => .error (prefixMsg ++ e)

/-- `logEvent` via `withClient`: consult the log-failure oracle, then insert
the `logs` row. A rejected insert propagates to the awaiting caller. -/
def logEventM (o : Oracles) (runId : Nat) (step level message : String) : PipeM Unit :=
  fun st =>
    match o.logFail st.logIdx with
    | some e => ({ st with logIdx := st.logIdx + 1 }, .error e)
    | none =>
      ({ st with
          logIdx := st.logIdx + 1
          db := { st.db with logs := st.db.logs ++ [{ runId, step, level, message }] } },
        .ok ())

/-- `runLog` of `runPipeline`: in-process log (a no-op here) followed by the
awaited Ledger `logEvent` write. -/
def runLogM (o : Oracles) (runId : Nat) (step level message : String) : PipeM Unit :=
  logEventM o runId step level message

/-- `getTemplatedOptions` (src/index.ts): pick the template id (rotating
through `TEMPLATED_TEMPLATE_IDS` by `runId % length` when set) and the page
index (`runId % TEMPLATED_PAGE_COUNT` when set). -/
def getTemplatedOptions (config : AppConfig) (runId : Nat) :
    Except String (String × Option Nat) :=
  let templateId : Option String :=
    if optSet config.TEMPLATED_TEMPLATE_IDS then
      let list := (((config.TEMPLATED_TEMPLATE_IDS.getD "").splitOn ",").map strTrim).filter
        fun s => !s.isEmpty
      if list.length > 0 then list[runId % list.length]?
      else config.TEMPLATED_TEMPLATE_ID.map strTrim
    else config.TEMPLATED_TEMPLATE_ID.map strTrim
  match templateId with
  | none => .error "Set TEMPLATED_TEMPLATE_ID or TEMPLATED_TEMPLATE_IDS"
  | some tid =>
    if tid = "" then .error "Set TEMPLATED_TEMPLATE_ID or TEMPLATED_TEMPLATE_IDS"
    else
      let pageIndex :=
        match config.TEMPLATED_PAGE_COUNT with
        | some n => if n > 0 then some (runId % n) else none
        | none => none
      .ok (tid, pageIndex)

/-- The trend fetch of `runPipeline`: the configured source's adapter with
its step-qualified error wrapper. -/
def fetchTrendsM (config : AppConfig) (o : Oracles) : PipeM (List TrendItem) :=
  match config.GOOGLE_TRENDS_SOURCE with
  | .bigquery => liftE (wrapE "Google Trends BigQuery failed: " o.trendsResult)
  | .searchapiFood => liftE (wrapE "SearchApi Food & Drink trends failed: " o.trendsResult)
  | .mcp => liftE (wrapE "Google Trends MCP failed: " o.trendsResult)

/-- `useTemplated` of the non-dry-run block:
`TEMPLATED_API_KEY?.trim() && TEMPLATED_TEMPLATE_ID?.trim()`. -/
def useTemplatedCfg (config : AppConfig) : Bool :=
  optSet config.TEMPLATED_API_KEY && optSet config.TEMPLATED_TEMPLATE_ID

/-- Display name of the configured trend source (for the fetch log line). -/
def sourceNameOf : TrendsSource → String
  | .bigquery => "bigquery"
  | .mcp => "mcp"
  | .searchapiFood => "searchapi_food"

/-- The Getlate image-strategy tree of the non-dry-run block (local-template
overlay, raw generation + upload, Templated render, Gemini recreate), with
each sub-failure caught and logged as the source does. Returns
`(imageResult, imageUrlForBlog, usedTemplatedForImage)`. -/
def pinCreativeGetlate (config : AppConfig) (o : Oracles) (runId : Nat)
    (_content : GeneratedContent) : PipeM (Option GenImage × Option String × Bool) := do
  -- Try local templates first; the whole attempt (edit + upload + log) is a
  -- `try`/`catch` that degrades to the next strategy with a warning.
  let urlUsedA ←
    (match o.localTemplatePath with
    | some path => do
      runLogM o runId "pin_creative" "info" ("Using local template: " ++ path)
      tryCatchP
        (do
          let templateWithText ← liftE o.addTextResult
          let url ← liftE (o.uploadResult templateWithText.imageDataBase64)
          runLogM o runId "pin_creative" "info"
            ("Using local template with Gemini-added text: " ++ url)
          pure ((some url : Option String), true))
        (fun err => do
          runLogM o runId "pin_creative" "warn"
            ("Local template failed (" ++ err ++ "), falling back to Templated.io or raw image")
          pure (none, false))
    | none => pure (none, false))
  let urlA := urlUsedA.1
  let usedA := urlUsedA.2
  -- Fallback: generate a Gemini image when the local template was not used;
  -- its upload is awaited without a catch, so an upload rejection throws.
  let imgUrlB ←
    (if !usedA then do
      let imageResult ← liftE (wrapE "Gemini image failed: " o.generateImageResult)
      runLogM o runId "pin_creative" "info" "Generated pin image"
      let url ← liftE (o.uploadResult imageResult.imageDataBase64)
      runLogM o runId "pin_creative" "info" "Uploaded image to Getlate for blog and pin"
      pure ((some imageResult : Option GenImage), (some url : Option String))
    else pure (none, urlA))
  let imgB := imgUrlB.1
  let urlB := imgUrlB.2
  -- Fallback to Templated.io when local templates did not work.
  if !usedA && useTemplatedCfg config && urlB.isSome then do
    let topt ← liftE (getTemplatedOptions config runId)
    let _ ← (match topt.2 with
      | some pageIndex =>
        runLogM o runId "pin_creative" "info"
          ("Using Templated template " ++ topt.1 ++ ", page " ++ toString (pageIndex + 1) ++
            " of " ++ toString (config.TEMPLATED_PAGE_COUNT.getD 0) ++ " (runId " ++
            toString runId ++ " % " ++ toString (config.TEMPLATED_PAGE_COUNT.getD 0) ++
            " = " ++ toString pageIndex ++ ")")
      | none =>
        runLogM o runId "pin_creative" "warn"
          "Templated page rotation disabled (TEMPLATED_PAGE_COUNT not set). Using default page/all pages.")
    let tr? ← tryCatchP
      (do
        let tr ← liftE o.templatedResult
        pure (some tr))
      (fun err => do
        runLogM o runId "pin_creative" "warn"
          ("Templated.io failed (" ++ err ++ "), using raw image for blog and pin")
        pure none)
    match tr? with
    | none => pure (imgB, urlB, usedA)
    | some tr => do
      runLogM o runId "pin_creative" "info" ("Templated image generated: " ++ tr.renderUrl)
      runLogM o runId "pin_creative" "info" "Sending Templated image to Gemini for improvement..."
      -- Recreate from scratch with Gemini; failure is logged and drives the
      -- re-upload fallback.
      let improved? ← tryCatchP
        (do
          let im ← liftE o.improveResult
          runLogM o runId "pin_creative" "info"
            "Gemini recreation successful, received clean pin image"
          pure (some im))
        (fun err => do
          runLogM o runId "pin_creative" "error" ("Gemini image recreation FAILED: " ++ err)
          pure none)
      match improved? with
      | some im => do
        runLogM o runId "pin_creative" "info" "Uploading Gemini-improved image to Getlate..."
        let u ← liftE (o.uploadResult im.imageDataBase64)
        runLogM o runId "pin_creative" "info"
          ("Using Gemini-improved image for blog and pin: " ++ u)
        pure (imgB, some u, true)
      | none => do
        runLogM o runId "pin_creative" "warn"
          "FALLBACK: Using Templated image without Gemini improvement"
        let u ← tryCatchP (liftE (o.reuploadResult tr.renderUrl))
          (fun err => do
            runLogM o runId "pin_creative" "warn"
              ("Re-upload Templated to Getlate failed (" ++ err ++ "), using Templated URL")
            pure tr.renderUrl)
        runLogM o runId "pin_creative" "warn" ("Using unimproved Templated image: " ++ u)
        pure (imgB, some u, true)
  else pure (imgB, urlB, usedA)

/-- The non-dry-run half of `runPipeline`: pin creative, blog publish,
`posts` row, image fallback, the three-way pin-posting branch, `assets` and
`pins` rows, and `markTopicUsed`. (`useCanva` is hard-coded `false` in the
source, so `useGetlate && !useCanva` is just `useGetlate`.) -/
def nonDryBlock (config : AppConfig) (o : Oracles) (runId : Nat)
    (content : GeneratedContent) (topicId : Nat) : PipeM Unit := do
  let useGetlate := optSet config.GETLATE_API_KEY
  let triple ←
    (if useGetlate then pinCreativeGetlate config o runId content
    else pure (none, none, false))
  let imageResult := triple.1
  let imageUrlForBlog := triple.2.1
  let usedTemplatedForImage := triple.2.2
  let _shopifyAccessToken ← liftE o.shopifyToken
  let shopifyResult ← liftE (wrapE "Shopify publish failed: " o.blogResult)
  runLogM o runId "blog_publish" "info" ("Published: " ++ shopifyResult.url)
  let postId ← createPostM topicId shopifyResult.id content.blog.title shopifyResult.url
    content.blog.metaTitle content.blog.metaDescription
  let imageResult2 ←
    (if imageUrlForBlog.isNone && imageResult.isNone then do
      let im ← liftE (wrapE "Gemini image failed: " o.generateImageResult)
      runLogM o runId "pin_creative" "info" "Generated pin image"
      pure (some im)
    else pure imageResult)
  let pinRes ←
    (if useGetlate then do
      runLogM o runId "pin_creative" "info" "Using Getlate for Pinterest"
      let _assetId ← createAssetM
        (if usedTemplatedForImage then "templated_image" else "raw_image")
        (if usedTemplatedForImage then "templated" else "gemini")
        (imageUrlForBlog.getD "gemini-inline")
      let pinResult ← liftE (wrapE "Getlate pin failed: " o.getlatePinResult)
      pure (_assetId, pinResult)
    else if useTemplatedCfg config then do
      let _ ← (if imageResult2.isNone then throwP "Templated path requires generated image"
        else pure ())
      let imageUrlForTemplated ←
        (if optSet config.GETLATE_API_KEY then
          tryCatchP
            (do
              let u ← liftE (o.uploadResult
                ((imageResult2.map (·.imageDataBase64)).getD ""))
              pure (some u))
            (fun _ => pure none)
        else pure none)
      match imageUrlForTemplated with
      | none =>
        throwP "Templated.io needs image_url. Set GETLATE_API_KEY to upload the image and get a URL."
      | some _ => do
        let _topt ← liftE (getTemplatedOptions config runId)
        let templatedResult ← liftE (wrapE "Templated.io pin failed: " o.templatedResult)
        let _assetId ← createAssetM "templated_image" "templated" templatedResult.renderUrl
        let pinResult ← liftE (wrapE "Pinterest post failed: " o.pinterestPinResult)
        pure (_assetId, pinResult)
    else do
      let _ ← (if imageResult2.isNone then throwP "Direct Pinterest path requires generated image"
        else pure ())
      runLogM o runId "pin_creative" "info"
        "Skipping Canva (no template/key); using Gemini image for pin"
      let _assetId ← createAssetM "raw_image" "gemini" "gemini-inline"
      let pinResult ← liftE (wrapE "Pinterest post failed: " o.pinterestPinResult)
      pure (_assetId, pinResult))
  -- (The source's `if (!pinResult) throw` guard is unreachable here: every
  -- branch produced a result.)
  let assetId := pinRes.1
  let pinResult := pinRes.2
  runLogM o runId "pinterest_post" "info" ("Pin created: " ++ pinResult.id)
  runLogM o runId "pinterest_post" "info" ("Pin URL: " ++ pinResult.link)
  let _pinId ← createPinM postId pinResult.id assetId content.pinterest.headline
    content.pinterest.description shopifyResult.url (some pinResult.link)
  markTopicUsedM topicId

/-- The tail of the `try` block after the winning Topic row is committed:
the selection log, content generation, headline sanitization, the
dry-run/non-dry-run branch, and the success finalization. -/
def afterCommit (config : AppConfig) (o : Oracles) (runId : Nat)
    (selected : Candidate) (topicId : Nat) : PipeM Unit := do
  runLogM o runId "topic_discovery" "info" ("Selected topic: " ++ selected.primary)
  let content0 ← liftE (wrapE "OpenAI content failed: " o.contentResult)
  runLogM o runId "content_generation" "info" "Generated blog and Pinterest copy"
  let content : GeneratedContent :=
    { content0 with
      pinterest :=
        { content0.pinterest with
          headline := sanitizeHeadline content0.pinterest.headline } }
  let _ ← (if !config.DRY_RUN then
    nonDryBlock config o runId content topicId
  else
    markTopicUsedM topicId)
  finalizeRunM runId "success" none
  runLogM o runId "orchestrator" "info" "Pipeline finished successfully"

/-- The candidate walk of topic deduplication: take the first candidate whose
primary keyword is not `selected`/`used` in the Ledger, logging each skip. -/
def selectLoop (o : Oracles) (runId : Nat) : List Candidate → PipeM (Option Candidate)
  | [] => pure none
  | c :: cs => do
    let used ← isTopicUsedM c.primary
    if !used then pure (some c)
    else do
      runLogM o runId "topic_discovery" "info" ("Topic already used, skipping: " ++ c.primary)
      selectLoop o runId cs

/-- The selection-and-commit part of the `try` block: reject the run when no
candidate exists, walk the candidates (or take the head under the reuse
override), reject when every candidate is used, commit the winning Topic row
(reusing an existing id under the override) and continue with
`afterCommit`. -/
def selectionPhase (config : AppConfig) (o : Oracles) (runId : Nat)
    (candidates : List Candidate) : PipeM Unit :=
  match candidates with
  | [] => do
    finalizeRunM runId "failed" (some "No topic selected after scoring")
    runLogM o runId "topic_discovery" "warn" "No topic selected"
  | c0 :: rest => do
    let selected? ←
      (if config.ALLOW_TOPIC_REUSE then do
        runLogM o runId "topic_discovery" "info"
          ("ALLOW_TOPIC_REUSE: selected first candidate: " ++ c0.primary)
        pure (some c0)
      else selectLoop o runId (c0 :: rest))
    match selected? with
    | none => do
      finalizeRunM runId "failed" (some "All candidate topics already used")
      runLogM o runId "topic_discovery" "warn" "All candidate topics already used"
    | some selected => do
      let topicId ←
        (if config.ALLOW_TOPIC_REUSE then do
          let existing ← getTopicIdByKeywordM selected.primary
          match existing with
          | some tid => pure tid
          | none => createTopicM selected.primary selected.supporting
        else createTopicM selected.primary selected.supporting)
      afterCommit config o runId selected topicId

/-- The body of `runPipeline`'s top-level `try` block. -/
def tryBody (config : AppConfig) (o : Oracles) (runId : Nat) : PipeM Unit := do
  let _ ← (if config.DRY_RUN then
    runLogM o runId "orchestrator" "info" "DRY_RUN enabled; skipping external calls"
    else pure ())
  let trends ← fetchTrendsM config o
  runLogM o runId "topic_discovery" "info"
    ("Fetched " ++ toString trends.length ++ " trend items (source=" ++
      sourceNameOf config.GOOGLE_TRENDS_SOURCE ++ ")")
  let contextKeywords ←
    (if optSet config.BOXNCASE_MCP_URL then do
      let context ← liftE (wrapE "BoxNCase MCP failed: " o.contextResult)
      pure (extractContextKeywords context)
    else pure [])
  runLogM o runId "topic_discovery" "info"
    ("Context keywords: " ++ toString contextKeywords.length)
  let candidates0 := scoreAndSelectTopicCandidates trends contextKeywords
  let candidates ←
    (if candidates0.isEmpty && !trends.isEmpty then do
      runLogM o runId "topic_discovery" "info"
        "No industry match; using all trends as fallback for this run"
      pure (fallbackCandidates trends)
    else pure candidates0)
  selectionPhase config o runId candidates

/-- `runPipeline` (src/index.ts): create the run row and the start log event
(outside the `try`), run the body, and on a thrown error finalize the run as
failed (that Ledger write's own failure is swallowed by `.catch(() => {})`),
log the error, and re-raise. A rejection of the error-log write itself
propagates in place of the original error (it is awaited without a catch). -/
def runPipeline (config : AppConfig) (o : Oracles) : PipeM Unit := fun st =>
  match createRunM st with
  | (st0, .error e) => (st0, .error e)
  | (st0, .ok runId) =>
    match logEventM o runId "orchestrator" "info" "Pipeline started" st0 with
    | (st1, .error e) => (st1, .error e)
    | (st1, .ok ()) =>
      match tryBody config o runId st1 with
      | (st2, .ok ()) => (st2, .ok ())
      | (st2, .error e) =>
        let st3 :=
          match o.finalizeCatchFail with
          | some _ => st2
          | none => (finalizeRunM runId "failed" (some e) st2).1
        match runLogM o runId "orchestrator" "error" e st3 with
        | (st4, .ok ()) => (st4, .error e)
        | (st4, .error e2) => (st4, .error e2)

/-! ## Frame lemmas

`KeepsPrims f`: the step `f` never changes the sequence of topic
`primary_keyword`s (it may append logs, posts, pins, update statuses, but
never inserts or removes a topic row's keyword). Every step of the pipeline
after the topic commit satisfies it; `createTopicM` is the only primitive
that does not. -/

/-- `f` preserves the list of topic primary keywords. -/
def KeepsPrims {α : Type} (f : PipeM α) : Prop :=
  ∀ st, (((f st).1).db.topics.map (·.primaryKeyword)) = st.db.topics.map (·.primaryKeyword)

theorem KeepsPrims.bindK {α β : Type} {f : PipeM α} {g : α → PipeM β}
    (hf : KeepsPrims f) (hg : ∀ a, KeepsPrims (g a)) : KeepsPrims (f >>= g) := by
  intro st
  simp only [bind_apply]
  have h1 := hf st
  cases hfst : f st with
  | mk st' r =>
    rw [hfst] at h1
    cases r with
    | ok a => simpa [h1] using (hg a st')
    | error e => simpa using h1

theorem KeepsPrims.tryCatchK {α : Type} {f : PipeM α} {g : String → PipeM α}
    (hf : KeepsPrims f) (hg : ∀ e, KeepsPrims (g e)) : KeepsPrims (tryCatchP f g) := by
  intro st
  simp only [tryCatchP]
  have h1 := hf st
  cases hfst : f st with
  | mk st' r =>
    rw [hfst] at h1
    cases r with
    | ok a => simpa using h1
    | error e => simpa [h1] using (hg e st')

theorem KeepsPrims.iteK {α : Type} {c : Prop} [Decidable c] {f g : PipeM α}
    (hf : KeepsPrims f) (hg : KeepsPrims g) : KeepsPrims (if c then f else g) := by
  by_cases h : c <;> simp [h] <;> assumption

theorem KeepsPrims.pureK {α : Type} (a : α) : KeepsPrims (pure a : PipeM α) :=
  fun _ => rfl

theorem KeepsPrims.liftK {α : Type} (x : Except String α) : KeepsPrims (liftE x) := by
  cases x <;> exact fun _ => rfl

theorem KeepsPrims.throwK {α : Type} (e : String) : KeepsPrims (throwP e : PipeM α) :=
  fun _ => rfl

theorem KeepsPrims.runLogK (o : Oracles) (r : Nat) (s l m : String) :
    KeepsPrims (runLogM o r s l m) := by
  intro st
  simp only [runLogM, logEventM]
  cases o.logFail st.logIdx <;> rfl

theorem KeepsPrims.logEventK (o : Oracles) (r : Nat) (s l m : String) :
    KeepsPrims (logEventM o r s l m) := KeepsPrims.runLogK o r s l m

theorem KeepsPrims.finalizeK (r : Nat) (s : String) (e : Option String) :
    KeepsPrims (finalizeRunM r s e) := by
  intro st; simp [finalizeRunM, modDb]

theorem KeepsPrims.markUsedK (tid : Nat) : KeepsPrims (markTopicUsedM tid) := by
  intro st
  simp only [markTopicUsedM, modDb, List.map_map]
  apply List.map_congr_left
  intro t _
  by_cases h : t.id = tid <;> simp [h]

theorem KeepsPrims.createPostK (a : Nat) (b c d e f : String) :
    KeepsPrims (createPostM a b c d e f) := fun _ => rfl

theorem KeepsPrims.createAssetK (a b c : String) : KeepsPrims (createAssetM a b c) :=
  fun _ => rfl

theorem KeepsPrims.createPinK (a : Nat) (b : String) (c : Nat) (d e f : String)
    (g : Option String) : KeepsPrims (createPinM a b c d e f g) := fun _ => rfl

theorem KeepsPrims.isTopicUsedK (kw : String) : KeepsPrims (isTopicUsedM kw) :=
  fun _ => rfl

theorem KeepsPrims.getTopicIdK (kw : String) : KeepsPrims (getTopicIdByKeywordM kw) :=
  fun _ => rfl

/-- The Getlate image-strategy tree never touches the topics table. -/
theorem keepsPrims_pinCreative (config : AppConfig) (o : Oracles) (runId : Nat)
    (c : GeneratedContent) : KeepsPrims (pinCreativeGetlate config o runId c) := by
  unfold pinCreativeGetlate
  apply KeepsPrims.bindK
  · cases o.localTemplatePath with
    | none => exact .pureK _
    | some path =>
      apply KeepsPrims.bindK (.runLogK _ _ _ _ _)
      intro _
      apply KeepsPrims.tryCatchK
      · exact .bindK (.liftK _) fun t =>
          .bindK (.liftK _) fun u => .bindK (.runLogK _ _ _ _ _) fun _ => .pureK _
      · exact fun e => .bindK (.runLogK _ _ _ _ _) fun _ => .pureK _
  · intro urlUsedA
    apply KeepsPrims.bindK
    · apply KeepsPrims.iteK
      · exact .bindK (.liftK _) fun im =>
          .bindK (.runLogK _ _ _ _ _) fun _ =>
            .bindK (.liftK _) fun u => .bindK (.runLogK _ _ _ _ _) fun _ => .pureK _
      · exact .pureK _
    · intro imgUrlB
      apply KeepsPrims.iteK
      · apply KeepsPrims.bindK (.liftK _)
        intro topt
        apply KeepsPrims.bindK
        · cases topt.2 <;> exact .runLogK _ _ _ _ _
        · intro _
          apply KeepsPrims.bindK
          · exact .tryCatchK (.bindK (.liftK _) fun tr => .pureK _)
              fun e => .bindK (.runLogK _ _ _ _ _) fun _ => .pureK _
          · rintro (_ | tr)
            · exact .pureK _
            · apply KeepsPrims.bindK (.runLogK _ _ _ _ _)
              intro _
              apply KeepsPrims.bindK (.runLogK _ _ _ _ _)
              intro _
              apply KeepsPrims.bindK
              · exact .tryCatchK
                  (.bindK (.liftK _) fun im => .bindK (.runLogK _ _ _ _ _) fun _ => .pureK _)
                  fun e => .bindK (.runLogK _ _ _ _ _) fun _ => .pureK _
              · rintro (_ | im)
                · apply KeepsPrims.bindK (.runLogK _ _ _ _ _)
                  intro _
                  apply KeepsPrims.bindK
                  · exact .tryCatchK (.liftK _)
                      fun e => .bindK (.runLogK _ _ _ _ _) fun _ => .pureK _
                  · intro u
                    exact .bindK (.runLogK _ _ _ _ _) fun _ => .pureK _
                · apply KeepsPrims.bindK (.runLogK _ _ _ _ _)
                  intro _
                  apply KeepsPrims.bindK (.liftK _)
                  intro u
                  exact .bindK (.runLogK _ _ _ _ _) fun _ => .pureK _
      · exact .pureK _

/-- The whole non-dry-run half never touches topic primary keywords
(`markTopicUsed` only flips the status). -/
theorem keepsPrims_nonDry (config : AppConfig) (o : Oracles) (runId : Nat)
    (c : GeneratedContent) (tid : Nat) : KeepsPrims (nonDryBlock config o runId c tid) := by
  unfold nonDryBlock
  apply KeepsPrims.bindK
  · exact .iteK (keepsPrims_pinCreative _ _ _ _) (.pureK _)
  · intro triple
    apply KeepsPrims.bindK (.liftK _)
    intro _tok
    apply KeepsPrims.bindK (.liftK _)
    intro shopifyResult
    apply KeepsPrims.bindK (.runLogK _ _ _ _ _)
    intro _
    apply KeepsPrims.bindK (.createPostK _ _ _ _ _ _)
    intro postId
    apply KeepsPrims.bindK
    · exact .iteK (.bindK (.liftK _) fun im => .bindK (.runLogK _ _ _ _ _) fun _ => .pureK _)
        (.pureK _)
    · intro imageResult2
      apply KeepsPrims.bindK
      · apply KeepsPrims.iteK
        · exact .bindK (.runLogK _ _ _ _ _) fun _ =>
            .bindK (.createAssetK _ _ _) fun aid => .bindK (.liftK _) fun pr => .pureK _
        · apply KeepsPrims.iteK
          · apply KeepsPrims.bindK (.iteK (.throwK _) (.pureK _))
            intro _
            apply KeepsPrims.bindK
            · exact .iteK (.tryCatchK (.bindK (.liftK _) fun u => .pureK _)
                fun _ => .pureK _) (.pureK _)
            · rintro (_ | u)
              · exact .throwK _
              · apply KeepsPrims.bindK (.liftK _)
                intro _topt
                apply KeepsPrims.bindK (.liftK _)
                intro templatedResult
                apply KeepsPrims.bindK (.createAssetK _ _ _)
                intro aid
                exact .bindK (.liftK _) fun pr => .pureK _
          · apply KeepsPrims.bindK (.iteK (.throwK _) (.pureK _))
            intro _
            apply KeepsPrims.bindK (.runLogK _ _ _ _ _)
            intro _
            apply KeepsPrims.bindK (.createAssetK _ _ _)
            intro aid
            exact .bindK (.liftK _) fun pr => .pureK _
      · intro pinRes
        apply KeepsPrims.bindK (.runLogK _ _ _ _ _)
        intro _
        apply KeepsPrims.bindK (.runLogK _ _ _ _ _)
        intro _
        apply KeepsPrims.bindK (.createPinK _ _ _ _ _ _ _)
        intro _
        exact .markUsedK _

/-- Everything after the topic commit preserves topic primary keywords. -/
theorem keepsPrims_afterCommit (config : AppConfig) (o : Oracles) (runId : Nat)
    (selected : Candidate) (tid : Nat) :
    KeepsPrims (afterCommit config o runId selected tid) := by
  unfold afterCommit
  apply KeepsPrims.bindK (.runLogK _ _ _ _ _)
  intro _
  apply KeepsPrims.bindK (.liftK _)
  intro content0
  apply KeepsPrims.bindK (.runLogK _ _ _ _ _)
  intro _
  apply KeepsPrims.bindK (.iteK (keepsPrims_nonDry _ _ _ _ _) (.markUsedK _))
  intro _
  apply KeepsPrims.bindK (.finalizeK _ _ _)
  intro _
  exact .runLogK _ _ _ _ _

/-! ## Execution equations

Pointwise equations for the primitives, used to execute the orchestrator
symbolically under the hypothesis that the Ledger log writes succeed. -/

theorem runLogM_eq (o : Oracles) (r : Nat) (s l m : String) (st : PipeSt)
    (h : o.logFail st.logIdx = none) :
    runLogM o r s l m st =
      ({ st with
          logIdx := st.logIdx + 1
          db := { st.db with logs := st.db.logs ++ [⟨r, s, l, m⟩] } }, .ok ()) := by
  simp [runLogM, logEventM, h]

theorem runLogM_fail (o : Oracles) (r : Nat) (s l m e : String) (st : PipeSt)
    (h : o.logFail st.logIdx = some e) :
    runLogM o r s l m st = ({ st with logIdx := st.logIdx + 1 }, .error e) := by
  simp [runLogM, logEventM, h]

theorem fetchTrendsM_ok (config : AppConfig) (o : Oracles) (ts : List TrendItem)
    (h : o.trendsResult = .ok ts) (st : PipeSt) : fetchTrendsM config o st = (st, .ok ts) := by
  rcases hsrc : config.GOOGLE_TRENDS_SOURCE <;> simp [fetchTrendsM, wrapE, h, hsrc]

/-- The context keywords the orchestrator computes (as an `Except`, since the
context fetch may reject). -/
def contextKeywordsOf (config : AppConfig) (o : Oracles) : Except String (List String) :=
  if optSet config.BOXNCASE_MCP_URL then
    match o.contextResult with
    | .ok context => .ok (extractContextKeywords context)
    | .error e => .error ("BoxNCase MCP failed: " ++ e)
  else .ok []

/-- Two states that agree on everything except the audit log. -/
def SameCore (st st' : PipeSt) : Prop :=
  st'.db.topics = st.db.topics ∧ st'.db.runs = st.db.runs ∧ st'.db.posts = st.db.posts ∧
    st'.db.assets = st.db.assets ∧ st'.db.pins = st.db.pins ∧
    st'.postCalls = st.postCalls ∧ st'.assetCalls = st.assetCalls ∧ st'.pinCalls = st.pinCalls

theorem SameCore.rfl (st : PipeSt) : SameCore st st := by
  simp [SameCore]

theorem SameCore.trans {a b c : PipeSt} (h1 : SameCore a b) (h2 : SameCore b c) :
    SameCore a c := by
  obtain ⟨t1, r1, p1, a1, i1, c1, c2, c3⟩ := h1
  obtain ⟨t2, r2, p2, a2, i2, d1, d2, d3⟩ := h2
  exact ⟨t2.trans t1, r2.trans r1, p2.trans p1, a2.trans a1, i2.trans i1,
    d1.trans c1, d2.trans c2, d3.trans c3⟩

theorem SameCore.addLog (st : PipeSt) (row : LogRow) :
    SameCore st { st with
      logIdx := st.logIdx + 1
      db := { st.db with logs := st.db.logs ++ [row] } } := by
  simp [SameCore]

theorem isTopicUsedD_congr {db db' : DB} (h : db'.topics = db.topics) (kw : String) :
    isTopicUsedD db' kw = isTopicUsedD db kw := by
  simp [isTopicUsedD, h]

/-- The deduplication walk: under reliable log writes, `selectLoop` returns
the first candidate not yet `selected`/`used` in the Ledger (`List.find?`
over the candidate order), changing nothing but the audit log. -/
theorem selectLoop_spec (o : Oracles) (runId : Nat) (h : ∀ n, o.logFail n = none) :
    ∀ (cs : List Candidate) (st : PipeSt),
      (selectLoop o runId cs st).2 =
          .ok (cs.find? fun c => !isTopicUsedD st.db c.primary) ∧
        SameCore st (selectLoop o runId cs st).1 := by
  intro cs
  induction cs with
  | nil =>
    intro st
    exact ⟨rfl, SameCore.rfl st⟩
  | cons c cs ih =>
    intro st
    by_cases hu : isTopicUsedD st.db c.primary
    · have hstep := runLogM_eq o runId "topic_discovery" "info"
        ("Topic already used, skipping: " ++ c.primary) st (h _)
      obtain ⟨ih1, ih2⟩ := ih { st with
        logIdx := st.logIdx + 1
        db := { st.db with logs := st.db.logs ++
          [⟨runId, "topic_discovery", "info", "Topic already used, skipping: " ++ c.primary⟩] } }
      have key : selectLoop o runId (c :: cs) st =
          selectLoop o runId cs { st with
            logIdx := st.logIdx + 1
            db := { st.db with logs := st.db.logs ++
              [⟨runId, "topic_discovery", "info",
                "Topic already used, skipping: " ++ c.primary⟩] } } := by
        simp [selectLoop, isTopicUsedM, hu, hstep]
      constructor
      · rw [key, List.find?_cons]
        simp only [hu, Bool.not_true]
        exact ih1
      · rw [key]
        exact SameCore.trans (SameCore.addLog st _) ih2
    · have hu' : isTopicUsedD st.db c.primary = false := by simpa using hu
      constructor
      · simp [selectLoop, isTopicUsedM, hu', List.find?_cons]
      · simp [selectLoop, isTopicUsedM, hu', SameCore.rfl]

/-- With the reuse override off and every candidate already `selected`/`used`,
the selection phase finalizes the run `failed` with exactly
"All candidate topics already used", resolves normally, and writes no new
Topic/Post/Asset/Pin row. -/
theorem selPhase_allUsed (config : AppConfig) (o : Oracles) (runId : Nat)
    (h : ∀ n, o.logFail n = none) (hreuse : config.ALLOW_TOPIC_REUSE = false)
    (c0 : Candidate) (rest : List Candidate) (st : PipeSt)
    (hall : (c0 :: rest).find? (fun c => !isTopicUsedD st.db c.primary) = none) :
    (selectionPhase config o runId (c0 :: rest) st).2 = .ok () ∧
      (selectionPhase config o runId (c0 :: rest) st).1.db.topics = st.db.topics ∧
      (selectionPhase config o runId (c0 :: rest) st).1.db.posts = st.db.posts ∧
      (selectionPhase config o runId (c0 :: rest) st).1.db.assets = st.db.assets ∧
      (selectionPhase config o runId (c0 :: rest) st).1.db.pins = st.db.pins ∧
      (selectionPhase config o runId (c0 :: rest) st).1.db.runs =
        st.db.runs.map fun r =>
          if r.id = runId then
            { r with status := "failed", errorSummary := some "All candidate topics already used" }
          else r := by
  obtain ⟨hres, hcore⟩ := selectLoop_spec o runId h (c0 :: rest) st
  rcases hp : selectLoop o runId (c0 :: rest) st with ⟨stW, res⟩
  rw [hp] at hres hcore
  simp only at hres
  rw [hall] at hres
  subst hres
  obtain ⟨ht, hr, hpo, ha, hpi, hc1, hc2, hc3⟩ := hcore
  simp only at ht hr hpo ha hpi hc1 hc2 hc3
  have key : selectionPhase config o runId (c0 :: rest) st =
      (do
        finalizeRunM runId "failed" (some "All candidate topics already used")
        runLogM o runId "topic_discovery" "warn" "All candidate topics already used") stW := by
    simp [selectionPhase, hreuse, hp]
  rw [key]
  simp [finalizeRunM, modDb, runLogM, logEventM, h, ht, hr, hpo, ha, hpi]

/-- With the reuse override off and a first not-yet-used candidate `c`, the
selection phase commits exactly one new Topic row for `c` (id = next serial)
and continues with `afterCommit` from that state. -/
theorem selPhase_commit (config : AppConfig) (o : Oracles) (runId : Nat)
    (h : ∀ n, o.logFail n = none) (hreuse : config.ALLOW_TOPIC_REUSE = false)
    (c0 : Candidate) (rest : List Candidate) (c : Candidate) (st : PipeSt)
    (hfind : (c0 :: rest).find? (fun c => !isTopicUsedD st.db c.primary) = some c) :
    ∃ stC : PipeSt,
      stC.db.topics = st.db.topics ++
          [⟨st.db.topics.length + 1, c.primary, c.supporting, TopicStatus.selected⟩] ∧
        stC.db.runs = st.db.runs ∧ stC.db.posts = st.db.posts ∧
        stC.db.assets = st.db.assets ∧ stC.db.pins = st.db.pins ∧
        stC.postCalls = st.postCalls ∧ stC.assetCalls = st.assetCalls ∧
        stC.pinCalls = st.pinCalls ∧
        selectionPhase config o runId (c0 :: rest) st =
          afterCommit config o runId c (st.db.topics.length + 1) stC := by
  obtain ⟨hres, hcore⟩ := selectLoop_spec o runId h (c0 :: rest) st
  rcases hp : selectLoop o runId (c0 :: rest) st with ⟨stW, res⟩
  rw [hp] at hres hcore
  simp only at hres
  rw [hfind] at hres
  subst hres
  obtain ⟨ht, hr, hpo, ha, hpi, hc1, hc2, hc3⟩ := hcore
  simp only at ht hr hpo ha hpi hc1 hc2 hc3
  refine ⟨(createTopicM c.primary c.supporting stW).1, ?_, ?_, ?_, ?_, ?_, ?_, ?_, ?_, ?_⟩
  · simp [createTopicM, ht]
  · simp [createTopicM, hr]
  · simp [createTopicM, hpo]
  · simp [createTopicM, ha]
  · simp [createTopicM, hpi]
  · simp [createTopicM, hc1]
  · simp [createTopicM, hc2]
  · simp [createTopicM, hc3]
  · have key : selectionPhase config o runId (c0 :: rest) st =
        afterCommit config o runId c (st.db.topics.length + 1)
          (createTopicM c.primary c.supporting stW).1 := by
      simp [selectionPhase, hreuse, hp, createTopicM, ht]
    exact key

/-- In dry-run mode with successful content generation, the tail after the
commit marks the topic `used`, finalizes the run `success`, and creates no
post, asset, or pin. -/
theorem afterCommit_dry (config : AppConfig) (o : Oracles) (runId : Nat)
    (sel : Candidate) (tid : Nat) (h : ∀ n, o.logFail n = none)
    (hdry : config.DRY_RUN = true) (g : GeneratedContent)
    (hcont : o.contentResult = .ok g) (st : PipeSt) :
    (afterCommit config o runId sel tid st).2 = .ok () ∧
      (afterCommit config o runId sel tid st).1.db.topics =
        st.db.topics.map (fun t => if t.id = tid then { t with status := .used } else t) ∧
      (afterCommit config o runId sel tid st).1.db.posts = st.db.posts ∧
      (afterCommit config o runId sel tid st).1.db.assets = st.db.assets ∧
      (afterCommit config o runId sel tid st).1.db.pins = st.db.pins ∧
      (afterCommit config o runId sel tid st).1.postCalls = st.postCalls ∧
      (afterCommit config o runId sel tid st).1.assetCalls = st.assetCalls ∧
      (afterCommit config o runId sel tid st).1.pinCalls = st.pinCalls ∧
      (afterCommit config o runId sel tid st).1.db.runs =
        st.db.runs.map fun r =>
          if r.id = runId then { r with status := "success", errorSummary := none } else r := by
  simp [afterCommit, runLogM, logEventM, h, hdry, hcont, wrapE, liftE, finalizeRunM,
    markTopicUsedM, modDb]

/-- Append audit-log rows to a state (log writes are the only effect of the
discovery prefix of the `try` body). -/
def addLogs (st : PipeSt) (rows : List LogRow) : PipeSt :=
  { st with
    logIdx := st.logIdx + rows.length
    db := { st.db with logs := st.db.logs ++ rows } }

theorem SameCore.addLogs (st : PipeSt) (rows : List LogRow) :
    SameCore st (addLogs st rows) := by
  simp [SameCore, PinAutoPost.addLogs]

/-- The audit-log rows written by the `try` body before the selection phase. -/
def prefixLogs (config : AppConfig) (runId : Nat) (ts : List TrendItem)
    (kws : List String) : List LogRow :=
  (if config.DRY_RUN then
    [⟨runId, "orchestrator", "info", "DRY_RUN enabled; skipping external calls"⟩]
  else []) ++
    [⟨runId, "topic_discovery", "info",
      "Fetched " ++ toString ts.length ++ " trend items (source=" ++
        sourceNameOf config.GOOGLE_TRENDS_SOURCE ++ ")"⟩,
     ⟨runId, "topic_discovery", "info", "Context keywords: " ++ toString kws.length⟩] ++
    (if (scoreAndSelectTopicCandidates ts kws).isEmpty && !ts.isEmpty then
      [⟨runId, "topic_discovery", "info",
        "No industry match; using all trends as fallback for this run"⟩]
    else [])

/-- Under reliable log writes and successful trend/context fetches, the
`try` body reaches the selection phase with the candidate list
`candidatesWithFallback trends contextKeywords`, having appended only audit
log rows. -/
theorem tryBody_logPre (config : AppConfig) (o : Oracles) (runId : Nat)
    (h : ∀ n, o.logFail n = none) (ts : List TrendItem) (kws : List String)
    (htr : o.trendsResult = .ok ts) (hctx : contextKeywordsOf config o = .ok kws)
    (st : PipeSt) :
    tryBody config o runId st =
      selectionPhase config o runId (candidatesWithFallback ts kws)
        (addLogs st (prefixLogs config runId ts kws)) := by
  have hfetch : ∀ st' : PipeSt, fetchTrendsM config o st' = (st', .ok ts) :=
    fetchTrendsM_ok config o ts htr
  rcases hbox : optSet config.BOXNCASE_MCP_URL with _ | _
  · have hkws : kws = [] := by
      simp [contextKeywordsOf, hbox] at hctx
      exact hctx
    subst hkws
    rcases hdry : config.DRY_RUN with _ | _ <;>
      rcases hfb : (scoreAndSelectTopicCandidates ts []).isEmpty && !ts.isEmpty with _ | _ <;>
      · simp only [tryBody, bind_apply, runLogM, logEventM, h, hfetch, hbox, hfb, hdry,
          candidatesWithFallback]
        simp [h, hfb, hdry, addLogs, prefixLogs, runLogM, logEventM]
  · rcases hco : o.contextResult with e | ctx
    · exfalso
      simp [contextKeywordsOf, hbox, hco] at hctx
    · have hkws : kws = extractContextKeywords ctx := by
        simp [contextKeywordsOf, hbox, hco] at hctx
        exact hctx.symm
      subst hkws
      rcases hdry : config.DRY_RUN with _ | _ <;>
        rcases hfb : (scoreAndSelectTopicCandidates ts
            (extractContextKeywords ctx)).isEmpty && !ts.isEmpty with _ | _ <;>
        · simp only [tryBody, bind_apply, runLogM, logEventM, h, hfetch, hbox, hco, wrapE,
            liftE, hfb, hdry, candidatesWithFallback]
          simp [h, hfb, hdry, addLogs, prefixLogs, runLogM, logEventM]

/-- State after `createRun` and the "Pipeline started" log write (assuming
that write succeeds). The new run's id is the next serial. -/
def startState (st : PipeSt) : PipeSt :=
  addLogs
    { st with
      db := { st.db with runs := st.db.runs ++ [⟨st.db.runs.length + 1, "running", none⟩] } }
    [⟨st.db.runs.length + 1, "orchestrator", "info", "Pipeline started"⟩]

/-- `runPipeline` reduced past the run creation and start log: what remains
is the `try` body and the top-level catch handler. -/
theorem runPipeline_start (config : AppConfig) (o : Oracles) (st0 : PipeSt)
    (hlog0 : o.logFail st0.logIdx = none) :
    runPipeline config o st0 =
      (match tryBody config o (st0.db.runs.length + 1) (startState st0) with
       | (st2, .ok ()) => (st2, .ok ())
       | (st2, .error e) =>
         let st3 :=
           match o.finalizeCatchFail with
           | some _ => st2
           | none => (finalizeRunM (st0.db.runs.length + 1) "failed" (some e) st2).1
         match runLogM o (st0.db.runs.length + 1) "orchestrator" "error" e st3 with
         | (st4, .ok ()) => (st4, .error e)
         | (st4, .error e2) => (st4, .error e2)) := by
  simp [runPipeline, createRunM, logEventM, hlog0, startState, addLogs, runLogM]

/-- With the reuse override off, reliable log writes and successful fetches,
if the rank-order walk finds an unused candidate `c`, then `c` was indeed
unused and `c.primary` is the only topic keyword the whole run adds —
whatever the downstream steps do. -/
theorem runPipeline_commits (config : AppConfig) (o : Oracles) (st0 : PipeSt)
    (ts : List TrendItem) (kws : List String) (c0 : Candidate) (rest : List Candidate)
    (c : Candidate)
    (h : ∀ n, o.logFail n = none)
    (hreuse : config.ALLOW_TOPIC_REUSE = false)
    (htr : o.trendsResult = .ok ts)
    (hctx : contextKeywordsOf config o = .ok kws)
    (hc : candidatesWithFallback ts kws = c0 :: rest)
    (hfind : (c0 :: rest).find? (fun c => !isTopicUsedD st0.db c.primary) = some c) :
    isTopicUsedD st0.db c.primary = false ∧
      (runPipeline config o st0).1.db.topics.map (·.primaryKeyword) =
        st0.db.topics.map (·.primaryKeyword) ++ [c.primary] := by
  have hlog0 : o.logFail st0.logIdx = none := h _
  set rid := st0.db.runs.length + 1 with hrid
  set stS := addLogs (startState st0) (prefixLogs config rid ts kws) with hstS
  have hbody : tryBody config o rid (startState st0) =
      selectionPhase config o rid (c0 :: rest) stS := by
    rw [tryBody_logPre config o rid h ts kws htr hctx (startState st0), hc]
  have hTopEq : stS.db.topics = st0.db.topics := by
    simp [hstS, addLogs, startState]
  have hfind' : (c0 :: rest).find? (fun c => !isTopicUsedD stS.db c.primary) = some c := by
    have hpred : (fun c : Candidate => !isTopicUsedD stS.db c.primary) =
        (fun c : Candidate => !isTopicUsedD st0.db c.primary) := by
      funext c
      rw [isTopicUsedD_congr hTopEq]
    rw [hpred, hfind]
  have hcused : isTopicUsedD st0.db c.primary = false := by
    have := List.find?_some hfind
    simpa using this
  refine ⟨hcused, ?_⟩
  obtain ⟨stC, hCt, _, _, _, _, _, _, _, hCeq⟩ :=
    selPhase_commit config o rid h hreuse c0 rest c stS hfind'
  have hCprims : stC.db.topics.map (·.primaryKeyword) =
      st0.db.topics.map (·.primaryKeyword) ++ [c.primary] := by
    rw [hCt, hTopEq]
    simp
  rcases hAC : afterCommit config o rid c (stS.db.topics.length + 1) stC with ⟨stF, rF⟩
  have hFprims : stF.db.topics.map (·.primaryKeyword) =
      stC.db.topics.map (·.primaryKeyword) := by
    have hk := keepsPrims_afterCommit config o rid c (stS.db.topics.length + 1) stC
    rw [hAC] at hk
    exact hk
  have hrun := runPipeline_start config o st0 hlog0
  rw [hbody, hCeq, hAC] at hrun
  cases rF with
  | ok u =>
    cases u
    rw [hrun]
    simp only
    rw [hFprims, hCprims]
  | error e =>
    rw [hrun]
    simp only
    have h3prims : ∀ st3 : PipeSt,
        st3.db.topics.map (·.primaryKeyword) = stF.db.topics.map (·.primaryKeyword) →
        ((match runLogM o rid "orchestrator" "error" e st3 with
          | (st4, .ok ()) => (st4, Except.error e)
          | (st4, .error e2) => (st4, Except.error e2)) :
            PipeSt × Except String Unit).1.db.topics.map (·.primaryKeyword) =
          st0.db.topics.map (·.primaryKeyword) ++ [c.primary] := by
      intro st3 h3
      rw [runLogM_eq o rid "orchestrator" "error" e st3 (h _)]
      simp only
      rw [h3, hFprims, hCprims]
    cases hfc : o.finalizeCatchFail with
    | some e2 =>
      simp only [hfc]
      exact h3prims stF rfl
    | none =>
      simp only [hfc]
      apply h3prims
      have hk := KeepsPrims.finalizeK rid "failed" (some e) stF
      exact hk

/-! ## Claim theorems -/

/-- **C1.** For every run with the reuse override disabled (and reliable log
writes, successful trend/context fetches, and fresh run ids), the
orchestrator walks the candidate list in rank order: (a) when every
candidate's `primary_keyword` is already `selected`/`used` in the Ledger,
the run resolves normally, no Topic row is created, and the Run is finalized
`failed` with error summary exactly "All candidate topics already used";
(b) when some candidate is unused, the first such candidate `c` (the
`find?` over rank order) is the one committed — its keyword was not used —
and it is the only topic keyword ever added by the run. -/
theorem claim_C1_dedup_and_exhaustion (config : AppConfig) (o : Oracles) (st0 : PipeSt)
    (ts : List TrendItem) (kws : List String) (c0 : Candidate) (rest : List Candidate)
    (h : ∀ n, o.logFail n = none)
    (hreuse : config.ALLOW_TOPIC_REUSE = false)
    (htr : o.trendsResult = .ok ts)
    (hctx : contextKeywordsOf config o = .ok kws)
    (hfresh : ∀ r ∈ st0.db.runs, r.id ≠ st0.db.runs.length + 1)
    (hc : candidatesWithFallback ts kws = c0 :: rest) :
    ((c0 :: rest).find? (fun c => !isTopicUsedD st0.db c.primary) = none →
      (runPipeline config o st0).2 = .ok () ∧
        (runPipeline config o st0).1.db.topics = st0.db.topics ∧
        (runPipeline config o st0).1.db.runs = st0.db.runs ++
          [⟨st0.db.runs.length + 1, "failed", some "All candidate topics already used"⟩]) ∧
    (∀ c : Candidate,
      (c0 :: rest).find? (fun c => !isTopicUsedD st0.db c.primary) = some c →
      isTopicUsedD st0.db c.primary = false ∧
        (runPipeline config o st0).1.db.topics.map (·.primaryKeyword) =
          st0.db.topics.map (·.primaryKeyword) ++ [c.primary]) := by
  have hlog0 : o.logFail st0.logIdx = none := h _
  set rid := st0.db.runs.length + 1 with hrid
  set stS := addLogs (startState st0) (prefixLogs config rid ts kws) with hstS
  have hbody : tryBody config o rid (startState st0) =
      selectionPhase config o rid (c0 :: rest) stS := by
    rw [tryBody_logPre config o rid h ts kws htr hctx (startState st0), hc]
  have hTopEq : stS.db.topics = st0.db.topics := by
    simp [hstS, addLogs, startState]
  have hRunEq : stS.db.runs = st0.db.runs ++ [⟨rid, "running", none⟩] := by
    simp [hstS, addLogs, startState]
  have hPostEq : stS.db.posts = st0.db.posts := by simp [hstS, addLogs, startState]
  have hAssetEq : stS.db.assets = st0.db.assets := by simp [hstS, addLogs, startState]
  have hPinEq : stS.db.pins = st0.db.pins := by simp [hstS, addLogs, startState]
  have hpred : (fun c : Candidate => !isTopicUsedD stS.db c.primary) =
      (fun c : Candidate => !isTopicUsedD st0.db c.primary) := by
    funext c
    rw [isTopicUsedD_congr hTopEq]
  constructor
  · intro hall
    have hall' : (c0 :: rest).find? (fun c => !isTopicUsedD stS.db c.primary) = none := by
      rw [hpred, hall]
    obtain ⟨hr2, ht2, hp2, ha2, hi2, hruns2⟩ :=
      selPhase_allUsed config o rid h hreuse c0 rest stS hall'
    rcases hsel : selectionPhase config o rid (c0 :: rest) stS with ⟨st2, r2⟩
    rw [hsel] at hr2 ht2 hruns2
    simp only at hr2 ht2 hruns2
    subst hr2
    have hfinal : runPipeline config o st0 = (st2, .ok ()) := by
      rw [runPipeline_start config o st0 hlog0, hbody, hsel]
    rw [hfinal]
    refine ⟨rfl, ?_, ?_⟩
    · simp [ht2, hTopEq]
    · rw [hruns2, hRunEq, List.map_append]
      have hleft : st0.db.runs.map (fun r =>
          if r.id = rid then
            { r with status := "failed", errorSummary := some "All candidate topics already used" }
          else r) = st0.db.runs := by
        conv_rhs => rw [← List.map_id st0.db.runs]
        apply List.map_congr_left
        intro r hrmem
        simp [hfresh r hrmem]
      rw [hleft]
      simp
  · intro c hfind
    exact runPipeline_commits config o st0 ts kws c0 rest c h hreuse htr hctx hc hfind

/-- A trend item matching the industry keyword "bulk". -/
def tiBulk : TrendItem := ⟨"bulk snacks", some 5, some true⟩

/-- The candidate produced from `tiBulk`. -/
def candBulk : Candidate := ⟨"bulk snacks", []⟩

/-- A dry-run configuration with the reuse override off. -/
def cfgC1 : AppConfig := { DRY_RUN := true }

/-- Oracles for the C1 scenarios (content generation never reached in the
exhausted branch, irrelevant to the committed keyword in the other). -/
def oC1 : Oracles :=
  { trendsResult := .ok [tiBulk], contentResult := .error "content oracle unused" }

/-- A Ledger in which "bulk snacks" is already used. -/
def stUsedC1 : PipeSt := { db := { topics := [⟨1, "bulk snacks", [], .used⟩] } }

/-- Witness for C1 at concrete inputs: the exhausted Ledger yields the exact
failure summary and no Topic row; the fresh Ledger commits "bulk snacks". -/
theorem claim_C1_witness :
    ((runPipeline cfgC1 oC1 stUsedC1).2 = .ok () ∧
        (runPipeline cfgC1 oC1 stUsedC1).1.db.topics = stUsedC1.db.topics ∧
        (runPipeline cfgC1 oC1 stUsedC1).1.db.runs = stUsedC1.db.runs ++
          [⟨stUsedC1.db.runs.length + 1, "failed",
            some "All candidate topics already used"⟩]) ∧
      (isTopicUsedD ({} : PipeSt).db candBulk.primary = false ∧
        (runPipeline cfgC1 oC1 {}).1.db.topics.map (·.primaryKeyword) =
          ({} : PipeSt).db.topics.map (·.primaryKeyword) ++ [candBulk.primary]) :=
  ⟨(claim_C1_dedup_and_exhaustion cfgC1 oC1 stUsedC1 [tiBulk] [] candBulk []
      (fun _ => rfl) rfl rfl rfl (by simp [stUsedC1]) (by decide)).1 (by decide),
    (claim_C1_dedup_and_exhaustion cfgC1 oC1 {} [tiBulk] [] candBulk []
      (fun _ => rfl) rfl rfl rfl (by simp) (by decide)).2 candBulk (by decide)⟩

/-- **C6.** A dry-run execution (default configuration: reuse override off)
that selects a topic and generates content without error creates no Post,
Asset, or Pin row — `createPost`/`createAsset`/`createPin` are never invoked
(their call counters are unchanged) — marks the committed Topic `used`, and
finalizes the Run with status `success`. -/
theorem claim_C6_dry_run_frame (config : AppConfig) (o : Oracles) (st0 : PipeSt)
    (ts : List TrendItem) (kws : List String) (c0 : Candidate) (rest : List Candidate)
    (c : Candidate) (g : GeneratedContent)
    (h : ∀ n, o.logFail n = none)
    (hdry : config.DRY_RUN = true)
    (hreuse : config.ALLOW_TOPIC_REUSE = false)
    (htr : o.trendsResult = .ok ts)
    (hctx : contextKeywordsOf config o = .ok kws)
    (hcont : o.contentResult = .ok g)
    (hfreshR : ∀ r ∈ st0.db.runs, r.id ≠ st0.db.runs.length + 1)
    (hfreshT : ∀ t ∈ st0.db.topics, t.id ≠ st0.db.topics.length + 1)
    (hc : candidatesWithFallback ts kws = c0 :: rest)
    (hfind : (c0 :: rest).find? (fun c => !isTopicUsedD st0.db c.primary) = some c) :
    (runPipeline config o st0).2 = .ok () ∧
      (runPipeline config o st0).1.db.posts = st0.db.posts ∧
      (runPipeline config o st0).1.db.assets = st0.db.assets ∧
      (runPipeline config o st0).1.db.pins = st0.db.pins ∧
      (runPipeline config o st0).1.postCalls = st0.postCalls ∧
      (runPipeline config o st0).1.assetCalls = st0.assetCalls ∧
      (runPipeline config o st0).1.pinCalls = st0.pinCalls ∧
      (runPipeline config o st0).1.db.topics = st0.db.topics ++
        [⟨st0.db.topics.length + 1, c.primary, c.supporting, TopicStatus.used⟩] ∧
      (runPipeline config o st0).1.db.runs = st0.db.runs ++
        [⟨st0.db.runs.length + 1, "success", none⟩] := by
  have hlog0 : o.logFail st0.logIdx = none := h _
  set rid := st0.db.runs.length + 1 with hrid
  set stS := addLogs (startState st0) (prefixLogs config rid ts kws) with hstS
  have hbody : tryBody config o rid (startState st0) =
      selectionPhase config o rid (c0 :: rest) stS := by
    rw [tryBody_logPre config o rid h ts kws htr hctx (startState st0), hc]
  have hTopEq : stS.db.topics = st0.db.topics := by simp [hstS, addLogs, startState]
  have hRunEq : stS.db.runs = st0.db.runs ++ [⟨rid, "running", none⟩] := by
    simp [hstS, addLogs, startState]
  have hPostEq : stS.db.posts = st0.db.posts := by simp [hstS, addLogs, startState]
  have hAssetEq : stS.db.assets = st0.db.assets := by simp [hstS, addLogs, startState]
  have hPinEq : stS.db.pins = st0.db.pins := by simp [hstS, addLogs, startState]
  have hC1Eq : stS.postCalls = st0.postCalls := by simp [hstS, addLogs, startState]
  have hC2Eq : stS.assetCalls = st0.assetCalls := by simp [hstS, addLogs, startState]
  have hC3Eq : stS.pinCalls = st0.pinCalls := by simp [hstS, addLogs, startState]
  have hfind' : (c0 :: rest).find? (fun c => !isTopicUsedD stS.db c.primary) = some c := by
    have hpred : (fun c : Candidate => !isTopicUsedD stS.db c.primary) =
        (fun c : Candidate => !isTopicUsedD st0.db c.primary) := by
      funext c
      rw [isTopicUsedD_congr hTopEq]
    rw [hpred, hfind]
  obtain ⟨stC, hCt, hCr, hCp, hCa, hCpi, hCc1, hCc2, hCc3, hCeq⟩ :=
    selPhase_commit config o rid h hreuse c0 rest c stS hfind'
  set tid := stS.db.topics.length + 1 with htid
  obtain ⟨hACr, hACt, hACp, hACa, hACpi, hACc1, hACc2, hACc3, hACruns⟩ :=
    afterCommit_dry config o rid c tid h hdry g hcont stC
  have hpair : afterCommit config o rid c tid stC =
      ((afterCommit config o rid c tid stC).1, .ok ()) := Prod.ext rfl hACr
  have hfinal : runPipeline config o st0 =
      ((afterCommit config o rid c tid stC).1, .ok ()) := by
    rw [runPipeline_start config o st0 hlog0, hbody, hCeq, hpair]
  rw [hfinal]
  have htid0 : tid = st0.db.topics.length + 1 := by rw [htid, hTopEq]
  refine ⟨rfl, ?_, ?_, ?_, ?_, ?_, ?_, ?_, ?_⟩
  · rw [hACp, hCp, hPostEq]
  · rw [hACa, hCa, hAssetEq]
  · rw [hACpi, hCpi, hPinEq]
  · rw [hACc1, hCc1, hC1Eq]
  · rw [hACc2, hCc2, hC2Eq]
  · rw [hACc3, hCc3, hC3Eq]
  · rw [hACt, hCt, hTopEq, List.map_append]
    have hleft : st0.db.topics.map (fun t =>
        if t.id = tid then { t with status := TopicStatus.used } else t) = st0.db.topics := by
      conv_rhs => rw [← List.map_id st0.db.topics]
      apply List.map_congr_left
      intro t htm
      have := hfreshT t htm
      rw [htid0]
      simp [this]
    rw [hleft, htid0]
    simp
  · rw [hACruns, hCr, hRunEq, List.map_append]
    have hleft : st0.db.runs.map (fun r =>
        if r.id = rid then { r with status := "success", errorSummary := none } else r) =
        st0.db.runs := by
      conv_rhs => rw [← List.map_id st0.db.runs]
      apply List.map_congr_left
      intro r hrm
      simp [hfreshR r hrm]
    rw [hleft]
    simp

/-- A concrete successful content-generation result. -/
def gC6 : GeneratedContent :=
  { blog := ⟨"T", "B", "MT", "MD", "N"⟩
    pinterest := { headline := "Best Best Pie", description := "D" } }

/-- Oracles for the dry-run scenario: one rising industry-matching trend item
and successful content generation. -/
def oC6 : Oracles := { trendsResult := .ok [tiBulk], contentResult := .ok gC6 }

/-- Witness for C6: the concrete dry run creates no post/asset/pin, marks
the topic used, and finalizes `success`. -/
theorem claim_C6_witness :
    (runPipeline cfgC1 oC6 {}).2 = .ok () ∧
      (runPipeline cfgC1 oC6 {}).1.db.posts = ({} : PipeSt).db.posts ∧
      (runPipeline cfgC1 oC6 {}).1.db.assets = ({} : PipeSt).db.assets ∧
      (runPipeline cfgC1 oC6 {}).1.db.pins = ({} : PipeSt).db.pins ∧
      (runPipeline cfgC1 oC6 {}).1.postCalls = ({} : PipeSt).postCalls ∧
      (runPipeline cfgC1 oC6 {}).1.assetCalls = ({} : PipeSt).assetCalls ∧
      (runPipeline cfgC1 oC6 {}).1.pinCalls = ({} : PipeSt).pinCalls ∧
      (runPipeline cfgC1 oC6 {}).1.db.topics = ({} : PipeSt).db.topics ++
        [⟨({} : PipeSt).db.topics.length + 1, candBulk.primary, candBulk.supporting,
          TopicStatus.used⟩] ∧
      (runPipeline cfgC1 oC6 {}).1.db.runs = ({} : PipeSt).db.runs ++
        [⟨({} : PipeSt).db.runs.length + 1, "success", none⟩] :=
  claim_C6_dry_run_frame cfgC1 oC6 {} [tiBulk] [] candBulk [] candBulk gC6
    (fun _ => rfl) rfl rfl rfl rfl rfl (by simp) (by simp) (by decide) (by decide)

/-- An irrelevant trend item (matches no industry or context keyword). -/
def tsC5 : List TrendItem := [⟨"xyzzy", some 1, some true⟩]

/-- Oracles serving only the irrelevant trend item. -/
def oC5 : Oracles := { trendsResult := .ok tsC5, contentResult := .error "unused" }

/-- A Ledger in which the only fallback candidate is already used. -/
def stC5 : PipeSt := { db := { topics := [⟨1, "xyzzy", [], .used⟩] } }

/-- **C5, counterexample.** A non-empty trend list entirely discarded by the
relevance filter does NOT guarantee a topic gets selected: when every
fallback candidate is already used in the Ledger, the run is finalized
`failed` ("All candidate topics already used") and no topic is selected —
the claim's "a topic is still selected whenever the trend list is
non-empty" fails on this input. -/
theorem claim_C5_counterexample :
    scoreAndSelectTopicCandidates tsC5 [] = [] ∧ tsC5 ≠ [] ∧
      (runPipeline cfgC1 oC5 stC5).1.db.topics = stC5.db.topics ∧
      (runPipeline cfgC1 oC5 stC5).1.db.runs =
        [⟨1, "failed", some "All candidate topics already used"⟩] := by
  decide

/-- **C5, amended.** When the filter discards every item of a non-empty
trend list, the orchestrator does not fail the run for lack of a topic: the
candidate list becomes every trend item (supporting = the remaining items
capped at 5), so the "No topic selected after scoring" rejection is never
taken; and a topic is indeed committed provided some fallback candidate is
not already used in the Ledger (reuse override off, reliable log writes). -/
theorem claim_C5_fallback_amended (config : AppConfig) (o : Oracles) (st0 : PipeSt)
    (ts : List TrendItem) (kws : List String) (c : Candidate)
    (hsel : scoreAndSelectTopicCandidates ts kws = [])
    (hne : ts ≠ []) :
    (candidatesWithFallback ts kws = fallbackCandidates ts ∧
      (fallbackCandidates ts).length = ts.length ∧
      fallbackCandidates ts ≠ [] ∧
      (∀ i : Nat, (fallbackCandidates ts)[i]? =
        (ts[i]?).map fun t =>
          ⟨t.keyword, ((ts.eraseIdx i).take 5).map (·.keyword)⟩)) ∧
    ((∀ n, o.logFail n = none) → config.ALLOW_TOPIC_REUSE = false →
      o.trendsResult = .ok ts → contextKeywordsOf config o = .ok kws →
      (fallbackCandidates ts).find? (fun c => !isTopicUsedD st0.db c.primary) = some c →
      isTopicUsedD st0.db c.primary = false ∧
        (runPipeline config o st0).1.db.topics.map (·.primaryKeyword) =
          st0.db.topics.map (·.primaryKeyword) ++ [c.primary]) := by
  have hfb : candidatesWithFallback ts kws = fallbackCandidates ts := by
    simp [candidatesWithFallback, hsel, hne]
  have hlen : (fallbackCandidates ts).length = ts.length := by
    simp [fallbackCandidates]
  have hnefb : fallbackCandidates ts ≠ [] := by
    intro hnil
    rw [hnil] at hlen
    exact hne (List.eq_nil_of_length_eq_zero hlen.symm)
  refine ⟨⟨hfb, hlen, hnefb, ?_⟩, ?_⟩
  · intro i
    simp only [fallbackCandidates, List.getElem?_map, List.getElem?_enum]
    cases ts[i]? <;> rfl
  · intro h hreuse htr hctx hfind
    obtain ⟨c0, rest, hcons⟩ := List.exists_cons_of_ne_nil hnefb
    rw [hcons] at hfind
    exact runPipeline_commits config o st0 ts kws c0 rest c h hreuse htr hctx
      (hfb.trans hcons) hfind

/-- Witness for the amended C5: with a fresh Ledger, the same all-irrelevant
trend list still yields a committed topic via the fallback. -/
theorem claim_C5_witness :
    scoreAndSelectTopicCandidates tsC5 [] = [] ∧ tsC5 ≠ [] ∧
      (isTopicUsedD ({} : PipeSt).db (⟨"xyzzy", []⟩ : Candidate).primary = false ∧
        (runPipeline cfgC1 oC5 {}).1.db.topics.map (·.primaryKeyword) =
          ({} : PipeSt).db.topics.map (·.primaryKeyword) ++
            [(⟨"xyzzy", []⟩ : Candidate).primary]) :=
  ⟨by decide, by decide,
    (claim_C5_fallback_amended cfgC1 oC5 {} tsC5 [] ⟨"xyzzy", []⟩ (by decide) (by decide)).2
      (fun _ => rfl) rfl rfl rfl (by decide)⟩

/-- Oracles whose trend fetch rejects and whose third attempted log write
(the catch handler's error log for this path) also rejects. -/
def oC2 : Oracles :=
  { trendsResult := .error "boom"
    contentResult := .error "unused"
    logFail := fun n => if n = 2 then some "log down" else none }

/-- **C2, counterexample.** The step error is
"Google Trends BigQuery failed: boom", but because the catch handler's own
audit-log write rejects ("log down"), the error `runPipeline` re-raises is
"log down" — not the original step error. The original error does not
"propagate unchanged" whenever the failure-logging write fails (only the
finalize write is wrapped in `.catch(() => {})`). -/
theorem claim_C2_counterexample :
    (tryBody cfgC1 oC2 1 (startState {})).2 = .error "Google Trends BigQuery failed: boom" ∧
      (runPipeline cfgC1 oC2 {}).2 = .error "log down" ∧
      (runPipeline cfgC1 oC2 {}).1.db.runs =
        [⟨1, "failed", some "Google Trends BigQuery failed: boom"⟩] ∧
      "log down" ≠ "Google Trends BigQuery failed: boom" :=
  ⟨rfl, rfl, rfl, by decide⟩

/-- **C2, amended.** Every error thrown inside the `try` body is caught
exactly once at the top level, the Run is finalized `failed` with the
error's message as `error_summary` (a failure of that finalize write is
swallowed, leaving the runs table unchanged), and — provided the catch
handler's audit-log write succeeds — the very same error is re-raised to
the caller. (When that log write fails, its error propagates instead; see
the counterexample.) -/
theorem claim_C2_catch_amended (config : AppConfig) (o : Oracles) (st0 st2 : PipeSt)
    (e : String)
    (hlog0 : o.logFail st0.logIdx = none)
    (hbody : tryBody config o (st0.db.runs.length + 1) (startState st0) = (st2, .error e))
    (hlog2 : o.logFail st2.logIdx = none) :
    (runPipeline config o st0).2 = .error e ∧
      (o.finalizeCatchFail = none →
        (runPipeline config o st0).1.db.runs = st2.db.runs.map fun r =>
          if r.id = st0.db.runs.length + 1 then
            { r with status := "failed", errorSummary := some e }
          else r) ∧
      (∀ e2, o.finalizeCatchFail = some e2 →
        (runPipeline config o st0).1.db.runs = st2.db.runs) := by
  have hrun := runPipeline_start config o st0 hlog0
  rw [hbody] at hrun
  cases hfc : o.finalizeCatchFail with
  | none =>
    rw [hfc] at hrun
    simp only at hrun
    have hidx : (finalizeRunM (st0.db.runs.length + 1) "failed" (some e) st2).1.logIdx =
        st2.logIdx := rfl
    rw [runLogM_eq o (st0.db.runs.length + 1) "orchestrator" "error" e _
      (by rw [hidx]; exact hlog2)] at hrun
    rw [hrun]
    refine ⟨rfl, ?_, ?_⟩
    · intro _
      simp [finalizeRunM, modDb]
    · intro e2 he2
      simp at he2
  | some e2 =>
    rw [hfc] at hrun
    simp only at hrun
    rw [runLogM_eq o (st0.db.runs.length + 1) "orchestrator" "error" e st2 hlog2] at hrun
    rw [hrun]
    refine ⟨rfl, ?_, ?_⟩
    · intro hnone
      simp at hnone
    · intro e3 _
      rfl

/-- Oracles with a failing trend fetch but reliable log writes. -/
def oC2b : Oracles :=
  { trendsResult := .error "boom", contentResult := .error "unused" }

/-- Witness for the amended C2: with the catch handler's log write
succeeding, the wrapped step error itself is re-raised and recorded. -/
theorem claim_C2_witness :
    oC2b.logFail (({} : PipeSt)).logIdx = none ∧
      (runPipeline cfgC1 oC2b {}).2 = .error "Google Trends BigQuery failed: boom" :=
  ⟨rfl,
    (claim_C2_catch_amended cfgC1 oC2b {}
      (tryBody cfgC1 oC2b 1 (startState {})).1 "Google Trends BigQuery failed: boom"
      rfl rfl (by decide)).1⟩

/-- `oC6` with the fifth attempted log write rejecting. -/
def oC8 : Oracles :=
  { oC6 with logFail := fun n => if n = 4 then some "ledger log insert rejected" else none }

/-- **C8, counterexample.** Two runs identical except for the Ledger
`logEvent` outcome: with reliable log writes the dry run succeeds; when the
fifth log write rejects, the run aborts and is finalized `failed` with the
log error as summary — the step outcome is NOT independent of the audit-log
insert. -/
theorem claim_C8_counterexample :
    (runPipeline cfgC1 oC6 {}).2 = .ok () ∧
      (runPipeline cfgC1 oC6 {}).1.db.runs = [⟨1, "success", none⟩] ∧
      (runPipeline cfgC1 oC8 {}).2 = .error "ledger log insert rejected" ∧
      (runPipeline cfgC1 oC8 {}).1.db.runs =
        [⟨1, "failed", some "ledger log insert rejected"⟩] :=
  ⟨rfl, rfl, rfl, rfl⟩

/-- **C8, amended.** A failure of the Ledger `logEvent` insert performed by
`runLog` is not swallowed: `runLog` rejects with that error, and the whole
continuation of the step is skipped (the error propagates to the top-level
handler, aborting the run — see the counterexample for a full run). Only the
in-process console log is unaffected. -/
theorem claim_C8_log_failure_amended (o : Oracles) (r : Nat) (s l m e : String) (st : PipeSt)
    (hfail : o.logFail st.logIdx = some e) :
    runLogM o r s l m st = ({ st with logIdx := st.logIdx + 1 }, .error e) ∧
      ∀ (g : Unit → PipeM Unit),
        (runLogM o r s l m >>= g) st = ({ st with logIdx := st.logIdx + 1 }, .error e) := by
  have h1 := runLogM_fail o r s l m e st hfail
  refine ⟨h1, fun g => ?_⟩
  rw [bind_apply, h1]

/-- Witness for the amended C8 at a concrete failing log oracle. -/
theorem claim_C8_witness :
    oC8.logFail ({ logIdx := 4 } : PipeSt).logIdx = some "ledger log insert rejected" ∧
      runLogM oC8 1 "topic_discovery" "info" "Selected topic: bulk snacks" { logIdx := 4 } =
        ({ logIdx := 5 }, .error "ledger log insert rejected") :=
  ⟨by decide,
    (claim_C8_log_failure_amended oC8 1 "topic_discovery" "info"
      "Selected topic: bulk snacks" "ledger log insert rejected" { logIdx := 4 }
      (by decide)).1⟩

/-- The relevance filter as the claim words it ("contains, or is contained
by, an industry term or a context keyword — substring in both directions for
both kinds of terms"): the spec-side definition, for comparison with
`itemKept`, which is translated from the source. -/
def specItemKept (contextKeywords : List String) (t : TrendItem) : Bool :=
  let kw := lowerStr t.keyword
  (INDUSTRY_KEYWORDS.any fun i => strContains kw i || strContains i kw) ||
    (contextKeywords.any fun c => strContains kw c || strContains c kw)

/-- **C3, counterexample.** "foo" is contained in the industry term "food",
so the claim's bidirectional filter keeps it — but the source tests only
`kw.includes(industryTerm)`, so the code discards it (even though it is
rising) and produces no candidate. Industry matching is one-directional in
the code. -/
theorem claim_C3_counterexample :
    specItemKept [] ⟨"foo", some 1, some true⟩ = true ∧
      itemKept [] ⟨"foo", some 1, some true⟩ = false ∧
      scoreAndSelectTopicCandidates [⟨"foo", some 1, some true⟩] [] = [] := by
  decide

/-- **C3, amended.** The Topic Selector keeps exactly the items whose
lowercase keyword CONTAINS an industry term (one direction only), or
contains / is contained in a context keyword (both directions, both
case-normalized), and scores each survivor
`(score ?? 0) + 20·rising + 10·industryMatch + 10·contextMatch`; the scored
list is a permutation of the filtered-and-scored input. -/
theorem claim_C3_filter_and_score_amended (contextKeywords : List String) (t : TrendItem)
    (trends : List TrendItem) :
    (itemKept contextKeywords t = true ↔
      ((∃ i ∈ INDUSTRY_KEYWORDS, i.data <:+: (lowerStr t.keyword).data) ∨
        (∃ c ∈ contextKeywords,
          c.data <:+: (lowerStr t.keyword).data ∨ (lowerStr t.keyword).data <:+: c.data))) ∧
      itemScore contextKeywords t =
        (t.score.getD 0) + (if t.rising.getD false = true then 20 else 0) +
          (if ∃ i ∈ INDUSTRY_KEYWORDS, i.data <:+: (lowerStr t.keyword).data then 10 else 0) +
          (if ∃ c ∈ contextKeywords,
              c.data <:+: (lowerStr t.keyword).data ∨ (lowerStr t.keyword).data <:+: c.data
            then 10 else 0) ∧
      (scoredOf trends contextKeywords).Perm
        ((trends.filter (itemKept contextKeywords)).map
          fun t => ⟨t.keyword, itemScore contextKeywords t⟩) := by
  have hind : (INDUSTRY_KEYWORDS.any fun i => strContains (lowerStr t.keyword) i) = true ↔
      ∃ i ∈ INDUSTRY_KEYWORDS, i.data <:+: (lowerStr t.keyword).data := by
    simp only [List.any_eq_true, strContains, containsSub_iff]
  have hctx : (contextKeywords.any fun c =>
        strContains (lowerStr t.keyword) c || strContains c (lowerStr t.keyword)) = true ↔
      ∃ c ∈ contextKeywords,
        c.data <:+: (lowerStr t.keyword).data ∨ (lowerStr t.keyword).data <:+: c.data := by
    simp only [List.any_eq_true, strContains, containsSub_iff, Bool.or_eq_true]
  refine ⟨?_, ?_, ?_⟩
  · simp only [itemKept, Bool.or_eq_true, hind, hctx]
  · show (t.score.getD 0) + (if t.rising.getD false then (20 : Int) else 0) +
        (if (INDUSTRY_KEYWORDS.any fun i => strContains (lowerStr t.keyword) i) then (10 : Int)
          else 0) +
        (if (contextKeywords.any fun c =>
            strContains (lowerStr t.keyword) c || strContains c (lowerStr t.keyword))
          then (10 : Int) else 0) = _
    rw [if_congr hind rfl rfl, if_congr hctx rfl rfl]
  · exact List.perm_insertionSort scoreGe _

/-- `searchApiPush` keeps the invariant: every emitted keyword's lowercase
form is in `seen`, and emitted keywords are pairwise distinct
case-insensitively. -/
theorem searchApiPush_inv (st : List String × List TrendItem) (q : String) (sc : Int)
    (r : Bool)
    (h1 : ∀ it ∈ st.2, lowerStr it.keyword ∈ st.1)
    (h2 : st.2.Pairwise fun a b => lowerStr a.keyword ≠ lowerStr b.keyword) :
    (∀ it ∈ (searchApiPush st q sc r).2, lowerStr it.keyword ∈ (searchApiPush st q sc r).1) ∧
      (searchApiPush st q sc r).2.Pairwise
        (fun a b => lowerStr a.keyword ≠ lowerStr b.keyword) := by
  by_cases hg : lowerStr (strTrim q) = "" ∨ lowerStr (strTrim q) ∈ st.1
  · have hkeep : searchApiPush st q sc r = st := by
      unfold searchApiPush
      rcases hg with hg | hg <;> simp [hg, List.contains, List.elem_eq_mem]
    rw [hkeep]
    exact ⟨h1, h2⟩
  · push_neg at hg
    have hpush : searchApiPush st q sc r =
        (lowerStr (strTrim q) :: st.1, st.2 ++ [⟨strTrim q, some sc, some r⟩]) := by
      unfold searchApiPush
      simp [hg.1, hg.2, List.contains, List.elem_eq_mem]
    rw [hpush]
    constructor
    · intro it hit
      simp only at hit
      rcases List.mem_append.mp hit with hold | hnew
      · exact List.mem_cons_of_mem _ (h1 it hold)
      · simp only [List.mem_singleton] at hnew
        subst hnew
        exact List.mem_cons_self _ _
    · simp only
      rw [List.pairwise_append]
      refine ⟨h2, List.pairwise_singleton _ _, ?_⟩
      intro a ha b hb
      simp only [List.mem_singleton] at hb
      subst hb
      intro heq
      have hmem : lowerStr (strTrim q) ∈ st.1 := heq ▸ h1 a ha
      exact hg.2 hmem

/-- The fold over one SearchApi row list preserves the dedup invariant. -/
theorem searchApiFold_inv (r : Bool) (rows : List SearchApiRow) :
    ∀ st : List String × List TrendItem,
      (∀ it ∈ st.2, lowerStr it.keyword ∈ st.1) →
      st.2.Pairwise (fun a b => lowerStr a.keyword ≠ lowerStr b.keyword) →
      (∀ it ∈ (rows.foldl (fun st row =>
          if strTrim row.query ≠ "" then searchApiPush st (strTrim row.query) row.value r
          else st) st).2,
        lowerStr it.keyword ∈ (rows.foldl (fun st row =>
          if strTrim row.query ≠ "" then searchApiPush st (strTrim row.query) row.value r
          else st) st).1) ∧
      (rows.foldl (fun st row =>
          if strTrim row.query ≠ "" then searchApiPush st (strTrim row.query) row.value r
          else st) st).2.Pairwise (fun a b => lowerStr a.keyword ≠ lowerStr b.keyword) := by
  induction rows with
  | nil => exact fun st h1 h2 => ⟨h1, h2⟩
  | cons row rows ih =>
    intro st h1 h2
    simp only [List.foldl_cons]
    by_cases hq : strTrim row.query ≠ ""
    · obtain ⟨g1, g2⟩ := searchApiPush_inv st (strTrim row.query) row.value r h1 h2
      simpa [hq] using ih _ g1 g2
    · simpa [hq] using ih st h1 h2

/-- The SearchApi top/rising merge dedups case-insensitively: no two output
keywords agree after lowercasing. -/
theorem searchApiMerge_dedup (top rising : List SearchApiRow) :
    (searchApiMerge top rising).Pairwise
      (fun a b => lowerStr a.keyword ≠ lowerStr b.keyword) := by
  unfold searchApiMerge
  obtain ⟨g1, g2⟩ := searchApiFold_inv false top ([], []) (by simp) (by simp)
  exact (searchApiFold_inv true rising _ g1 g2).2

/-- **C4, counterexample.** The BigQuery top/rising merge deduplicates only
by exact string equality: with top term "Pizza" and rising term "pizza" it
emits BOTH, two keywords equal case-insensitively, and the selector then
produces two candidates with case-insensitively equal primaries — so
duplicates across the top and rising sources are NOT always deduplicated
case-insensitively before scoring. -/
theorem claim_C4_counterexample :
    (bigQueryMerge [("Pizza", 50)] ["pizza"] true).map (·.keyword) = ["Pizza", "pizza"] ∧
      lowerStr "Pizza" = lowerStr "pizza" ∧
      (scoreAndSelectTopicCandidates (bigQueryMerge [("Pizza", 50)] ["pizza"] true)
          ["pizza"]).map (·.primary) = ["Pizza", "pizza"] := by
  decide

/-- **C4, amended.** The selector returns candidates sorted descending by
score and capped at `MAX_TOPIC_CANDIDATES` (= 10): the scored list is
pairwise `≥` on scores, the primaries are exactly the keywords of its first
10 entries, and candidate `i`'s supporting list is the first 5 scored items
with position `i` removed. Dedup across the top/rising trend sources is
case-insensitive in the search-API adapter (proved here); the BigQuery
merge dedups by exact match only (see the counterexample), and the selector
itself performs no dedup. -/
theorem claim_C4_sort_cap_supporting_amended (trends : List TrendItem)
    (contextKeywords : List String) (top rising : List SearchApiRow) :
    (scoreAndSelectTopicCandidates trends contextKeywords).length ≤ MAX_TOPIC_CANDIDATES ∧
      (scoreAndSelectTopicCandidates trends contextKeywords).map (·.primary) =
        ((scoredOf trends contextKeywords).take MAX_TOPIC_CANDIDATES).map (·.keyword) ∧
      (scoredOf trends contextKeywords).Pairwise scoreGe ∧
      (∀ i : Nat, (scoreAndSelectTopicCandidates trends contextKeywords)[i]? =
        ((scoredOf trends contextKeywords).take MAX_TOPIC_CANDIDATES)[i]?.map fun s =>
          ⟨s.keyword,
            (((scoredOf trends contextKeywords).eraseIdx i).take 5).map (·.keyword)⟩) ∧
      (searchApiMerge top rising).Pairwise
        (fun a b => lowerStr a.keyword ≠ lowerStr b.keyword) := by
  refine ⟨?_, ?_, ?_, ?_, searchApiMerge_dedup top rising⟩
  · simp only [scoreAndSelectTopicCandidates, List.length_map, List.enum_length,
      List.length_take]
    exact min_le_left _ _
  · simp only [scoreAndSelectTopicCandidates, List.map_map]
    have : ((·.primary) ∘ fun p : Nat × Scored =>
        ({ primary := p.2.keyword
           supporting := (((scoredOf trends contextKeywords).eraseIdx p.1).take 5).map
             (·.keyword) } : Candidate)) = fun p : Nat × Scored => p.2.keyword := rfl
    rw [this]
    have h2 : (fun p : Nat × Scored => p.2.keyword) = (·.keyword) ∘ Prod.snd := rfl
    rw [h2, ← List.map_map, List.enum_map_snd]
  · exact List.sorted_insertionSort scoreGe _
  · intro i
    simp only [scoreAndSelectTopicCandidates, List.getElem?_map, List.getElem?_enum]
    cases ((scoredOf trends contextKeywords).take MAX_TOPIC_CANDIDATES)[i]? <;> rfl

/-- Words produced by `splitAux` are nonempty and space-free (given a
space-free accumulator). -/
theorem splitAux_wf : ∀ (l cur : List Char), ' ' ∉ cur →
    ∀ w ∈ splitAux cur l, w ≠ [] ∧ ' ' ∉ w := by
  intro l
  induction l with
  | nil =>
    intro cur hcur w hw
    simp only [splitAux] at hw
    split at hw
    · simp at hw
    · rename_i hne
      simp only [List.mem_singleton] at hw
      subst hw
      refine ⟨?_, ?_⟩
      · simp only [List.isEmpty_iff] at hne
        simpa using hne
      · simpa using hcur
  | cons c rest ih =>
    intro cur hcur w hw
    simp only [splitAux] at hw
    by_cases hc : c = ' '
    · rw [if_pos hc] at hw
      by_cases hemp : cur.isEmpty
      · rw [if_pos hemp] at hw
        exact ih [] (by simp) w hw
      · rw [if_neg hemp] at hw
        rcases List.mem_cons.mp hw with hrev | hrec
        · subst hrev
          constructor
          · simp only [List.isEmpty_iff] at hemp
            simpa using hemp
          · simpa using hcur
        · exact ih [] (by simp) w hrec
    · rw [if_neg hc] at hw
      exact ih (c :: cur) (by simp [hcur, Ne.symm hc]) w hw

/-- Every word kept by `collapseAux` comes from the input. -/
theorem collapseAux_subset : ∀ (l : List (List Char)) (p w : List Char),
    w ∈ collapseAux p l → w ∈ l := by
  intro l
  induction l with
  | nil => intro p w hw; simp [collapseAux] at hw
  | cons v rest ih =>
    intro p w hw
    simp only [collapseAux] at hw
    split at hw
    · exact List.mem_cons_of_mem _ (ih p w hw)
    · rcases List.mem_cons.mp hw with h | h
      · exact h ▸ List.mem_cons_self _ _
      · exact List.mem_cons_of_mem _ (ih v w h)

/-- After collapsing, no kept word repeats the previously kept word
case-insensitively. -/
theorem collapseAux_chain : ∀ (l : List (List Char)) (p : List Char),
    List.Chain (fun a b => lcWord a ≠ lcWord b) p (collapseAux p l) := by
  intro l
  induction l with
  | nil => intro p; exact .nil
  | cons v rest ih =>
    intro p
    simp only [collapseAux]
    split
    · exact ih p
    · exact .cons (by assumption) (ih v)

/-- `collapseAux` is the identity on lists already free of adjacent
case-insensitive repeats. -/
theorem collapseAux_id : ∀ (l : List (List Char)) (p : List Char),
    List.Chain (fun a b => lcWord a ≠ lcWord b) p l → collapseAux p l = l := by
  intro l
  induction l with
  | nil => intro p _; rfl
  | cons v rest ih =>
    intro p hch
    rcases hch with _ | ⟨hne, hch'⟩
    simp only [collapseAux, if_neg hne]
    rw [ih v hch']

/-- Collapsing immediately-repeated words is idempotent. -/
theorem collapseDups_idem (l : List (List Char)) :
    collapseDups (collapseDups l) = collapseDups l := by
  cases l with
  | nil => rfl
  | cons w rest =>
    simp only [collapseDups]
    rw [collapseAux_id _ _ (collapseAux_chain rest w)]

/-- Every word kept by `collapseDups` comes from the input. -/
theorem collapseDups_subset (l : List (List Char)) (w : List Char)
    (hw : w ∈ collapseDups l) : w ∈ l := by
  cases l with
  | nil => simp [collapseDups] at hw
  | cons v rest =>
    simp only [collapseDups] at hw
    rcases List.mem_cons.mp hw with h | h
    · exact h ▸ List.mem_cons_self _ _
    · exact List.mem_cons_of_mem _ (collapseAux_subset rest v w h)

/-- Scanning a space-free word just accumulates it (reversed). -/
theorem splitAux_word : ∀ (w cur rest : List Char), ' ' ∉ w →
    splitAux cur (w ++ rest) = splitAux (w.reverse ++ cur) rest := by
  intro w
  induction w with
  | nil => intro cur rest _; simp
  | cons c w' ih =>
    intro cur rest hsp
    have hc : ¬(c = ' ') := by
      intro hc
      exact hsp (hc ▸ List.mem_cons_self _ _)
    have hw' : ' ' ∉ w' := fun hm => hsp (List.mem_cons_of_mem _ hm)
    calc splitAux cur ((c :: w') ++ rest)
        = splitAux (c :: cur) (w' ++ rest) := by
          simp [splitAux, hc]
      _ = splitAux (w'.reverse ++ (c :: cur)) rest := ih (c :: cur) rest hw'
      _ = splitAux ((c :: w').reverse ++ cur) rest := by
          congr 1
          simp

/-- Splitting the space-joined words recovers them, provided each word is
nonempty and space-free. -/
theorem splitWords_joinWords : ∀ ws : List (List Char),
    (∀ w ∈ ws, w ≠ [] ∧ ' ' ∉ w) → splitWords (joinWords ws) = ws := by
  intro ws
  induction ws with
  | nil => intro _; rfl
  | cons w tail ih =>
    intro hwf
    obtain ⟨hne, hsp⟩ := hwf w (List.mem_cons_self _ _)
    have hrevne : ¬(w.reverse.isEmpty = true) := by
      simp [List.isEmpty_iff, hne]
    cases tail with
    | nil =>
      show splitAux [] (joinWords [w]) = [w]
      have h1 : joinWords [w] = w ++ [] := by simp [joinWords]
      rw [h1, splitAux_word w [] [] hsp, List.append_nil]
      simp [splitAux, hrevne]
    | cons v tail' =>
      show splitAux [] (joinWords (w :: v :: tail')) = w :: v :: tail'
      have hj : joinWords (w :: v :: tail') = w ++ ' ' :: joinWords (v :: tail') := rfl
      have hrec := ih (fun u hu => hwf u (List.mem_cons_of_mem _ hu))
      simp only [splitWords] at hrec
      rw [hj, splitAux_word w [] (' ' :: joinWords (v :: tail')) hsp, List.append_nil]
      simp [splitAux, hrevne, hrec]

/-- **C7.** The headline sanitizer (modelled from the spec, its module being
absent from the snapshot) collapses immediately-repeated case-insensitive
words and is idempotent; in particular
`sanitize "Best Best Pie Pie" = "Best Pie"` and `sanitize "Best" = "Best"`. -/
theorem claim_C7_sanitize_idempotent :
    (∀ x : String, sanitizeHeadline (sanitizeHeadline x) = sanitizeHeadline x) ∧
      sanitizeHeadline "Best Best Pie Pie" = "Best Pie" ∧
      sanitizeHeadline "Best" = "Best" := by
  refine ⟨?_, by decide, by decide⟩
  intro x
  unfold sanitizeHeadline
  have hwf : ∀ w ∈ collapseDups (splitWords x.data), w ≠ [] ∧ ' ' ∉ w := by
    intro w hw
    exact splitAux_wf x.data [] (by simp) w (collapseDups_subset _ w hw)
  have hsplit : splitWords (joinWords (collapseDups (splitWords x.data))) =
      collapseDups (splitWords x.data) := splitWords_joinWords _ hwf
  have hidem := collapseDups_idem (splitWords x.data)
  congr 1
  rw [show (String.mk (joinWords (collapseDups (splitWords x.data)))).data =
    joinWords (collapseDups (splitWords x.data)) from rfl]
  rw [hsplit, hidem]

/-- A parsed content-generation response whose `blog` and `pinterest` objects
are present but carry none of the inner fields. -/
def pcEmpty : ParsedContent := { blog := some {}, pinterest := some {} }

/-- **C9, counterexample.** The validator accepts a parsed response whose two
top-level objects are present but contain none of the required inner fields:
`blog.title`, `blog.bodyHtml`, `blog.metaTitle`, `blog.metaDescription`,
`pinterest.headline` and `pinterest.description` are all absent, yet
`generateContent`'s check (`!parsed.blog || !parsed.pinterest`) passes and the
value is returned as is, contradicting the claim that a response lacking any
of these fields is rejected. -/
theorem claim_C9_counterexample :
    pcEmpty.blog = some ⟨none, none, none, none, none⟩ ∧
      pcEmpty.pinterest = some ⟨none, none⟩ ∧
      validateParsedContent pcEmpty = .ok pcEmpty :=
  ⟨rfl, rfl, rfl⟩

/-- **C9, amended.** `generateContent` validates only that the two top-level
objects `blog` and `pinterest` are present: when both are, the parsed value is
returned unchanged with no inner field checked; when either is absent it fails
with the schema-mismatch message "OpenAI response missing blog or pinterest
object", which is distinct from the transport-level guard "OpenAI returned no
content" raised when the response carries no choice content at all. -/
theorem claim_C9_validation_amended (p : ParsedContent) :
    (p.blog.isSome = true → p.pinterest.isSome = true →
        validateParsedContent p = .ok p) ∧
      (p.blog = none ∨ p.pinterest = none →
        validateParsedContent p =
          .error "OpenAI response missing blog or pinterest object") ∧
      rawContentOfChoices [] = .error "OpenAI returned no content" := by
  refine ⟨fun hb hp => ?_, fun h => ?_, rfl⟩
  · obtain ⟨b, hbe⟩ := Option.isSome_iff_exists.mp hb
    obtain ⟨q, hqe⟩ := Option.isSome_iff_exists.mp hp
    simp [validateParsedContent, hbe, hqe]
  · rcases h with h | h <;> simp [validateParsedContent, h]

/-- Witness for the amended C9: the all-defaults response is accepted, and a
response with no `blog` object is rejected with the schema error. -/
theorem claim_C9_witness :
    validateParsedContent pcEmpty = .ok pcEmpty ∧
      validateParsedContent { blog := none, pinterest := some {} } =
        .error "OpenAI response missing blog or pinterest object" :=
  ⟨(claim_C9_validation_amended pcEmpty).1 rfl rfl,
    (claim_C9_validation_amended { blog := none, pinterest := some {} }).2.1
      (Or.inl rfl)⟩

/-- A prefix survives truncation: testing it against the first `n` characters
is the same as testing it against the whole list once `n` covers it. -/
theorem isPrefOf_take (p : List Char) : ∀ (l : List Char) (n : Nat),
    p.length ≤ n → isPrefOf p (l.take n) = isPrefOf p l := by
  induction p with
  | nil => intro l n _; simp [isPrefOf]
  | cons a as ih =>
    intro l n hn
    cases l with
    | nil => simp
    | cons b bs =>
      cases n with
      | zero => exact absurd hn (by simp)
      | succ m =>
        simp only [List.take_succ_cons, isPrefOf]
        rw [ih bs m (Nat.le_of_succ_le_succ hn)]

/-- **C10.** `sanitizeForPinterest` runs before any network call: the title it
submits is `cleanText` (control characters stripped, trimmed) capped at 100
characters, the description likewise capped at 500, and these are exactly the
`title` and `content` fields of the Getlate request body; and when the cleaned
link is empty, or starts with neither "http://" nor "https://",
`createPinViaGetlate` rejects with zero network requests issued. -/
theorem claim_C10_pin_limits (input : CreatePinViaGetlateInput) (net : GetlateNet) :
    (∀ s, sanitizeForPinterest input = .ok s →
        s.title = strTake (cleanText input.title) PINTEREST_TITLE_MAX ∧
        s.title.data.length ≤ PINTEREST_TITLE_MAX ∧
        s.description = strTake (cleanText input.description) PINTEREST_DESCRIPTION_MAX ∧
        s.description.data.length ≤ PINTEREST_DESCRIPTION_MAX ∧
        ∀ u, (getlateBody s u).title = s.title ∧ (getlateBody s u).content = s.description) ∧
      (cleanText input.link = "" →
        createPinViaGetlate input net =
          (.error "Pin destination link is required (e.g. blog article URL)", 0)) ∧
      (strStarts (cleanText input.link) "http://" = false →
        strStarts (cleanText input.link) "https://" = false →
        ∃ e, createPinViaGetlate input net = (.error e, 0)) := by
  refine ⟨fun s hok => ?_, fun h1 => ?_, fun h1 h2 => ?_⟩
  · simp only [sanitizeForPinterest] at hok
    repeat' split at hok
    all_goals first
      | exact Except.noConfusion hok
      | (injection hok with h
         subst h
         exact ⟨rfl, by simp [strTake], rfl, by simp [strTake], fun u => ⟨rfl, rfl⟩⟩)
  · simp [createPinViaGetlate, sanitizeForPinterest, h1]
  · by_cases h0 : cleanText input.link = ""
    · have hrun : createPinViaGetlate input net =
          (.error "Pin destination link is required (e.g. blog article URL)", 0) := by
        simp [createPinViaGetlate, sanitizeForPinterest, h0]
      exact ⟨_, hrun⟩
    · have hhttp : strStarts
          (if (cleanText input.link).data.length > PINTEREST_LINK_MAX then
            strTake (cleanText input.link) PINTEREST_LINK_MAX
          else cleanText input.link) "http://" = false := by
        split
        · rw [show strStarts (strTake (cleanText input.link) PINTEREST_LINK_MAX) "http://" =
            isPrefOf "http://".data ((cleanText input.link).data.take PINTEREST_LINK_MAX)
            from rfl]
          rw [isPrefOf_take _ _ _ (by decide)]
          exact h1
        · exact h1
      have hhttps : strStarts
          (if (cleanText input.link).data.length > PINTEREST_LINK_MAX then
            strTake (cleanText input.link) PINTEREST_LINK_MAX
          else cleanText input.link) "https://" = false := by
        split
        · rw [show strStarts (strTake (cleanText input.link) PINTEREST_LINK_MAX) "https://" =
            isPrefOf "https://".data ((cleanText input.link).data.take PINTEREST_LINK_MAX)
            from rfl]
          rw [isPrefOf_take _ _ _ (by decide)]
          exact h2
        · exact h2
      have hcond : (!(strStarts
          (if (cleanText input.link).data.length > PINTEREST_LINK_MAX then
            strTake (cleanText input.link) PINTEREST_LINK_MAX
          else cleanText input.link) "http://" || strStarts
          (if (cleanText input.link).data.length > PINTEREST_LINK_MAX then
            strTake (cleanText input.link) PINTEREST_LINK_MAX
          else cleanText input.link) "https://")) = true := by
        rw [hhttp, hhttps]
        rfl
      have hsan : sanitizeForPinterest input = .error
          ("Pin link must be a valid HTTP(S) URL, got: " ++
            strTake (if (cleanText input.link).data.length > PINTEREST_LINK_MAX then
              strTake (cleanText input.link) PINTEREST_LINK_MAX
            else cleanText input.link) 50 ++ "...") := by
        simp only [sanitizeForPinterest]
        rw [if_neg h0, if_pos hcond]
      have hrun : createPinViaGetlate input net = (.error
          ("Pin link must be a valid HTTP(S) URL, got: " ++
            strTake (if (cleanText input.link).data.length > PINTEREST_LINK_MAX then
              strTake (cleanText input.link) PINTEREST_LINK_MAX
            else cleanText input.link) 50 ++ "..."), 0) := by
        simp only [createPinViaGetlate, hsan]
      exact ⟨_, hrun⟩

/-- The concrete input of the C10 witness: a non-HTTP destination link. -/
def pinInC10 : CreatePinViaGetlateInput :=
  { apiKey := "k", accountId := "a", boardId := "user/board",
    title := "T", description := "D", link := "ftp://x",
    imageUrl := some "https://img" }

/-- The network oracle of the C10 witness; it is never consulted. -/
def netC10 : GetlateNet :=
  { uploadResult := .error "no upload", postResult := fun _ => .error "no post" }

/-- Witness for C10: a pin whose link is `ftp://x` is rejected with zero
network requests issued. -/
theorem claim_C10_witness :
    strStarts (cleanText pinInC10.link) "http://" = false ∧
      strStarts (cleanText pinInC10.link) "https://" = false ∧
      ∃ e, createPinViaGetlate pinInC10 netC10 = (.error e, 0) :=
  ⟨by decide, by decide,
    (claim_C10_pin_limits pinInC10 netC10).2.2 (by decide) (by decide)⟩

end PinAutoPost
